import Mathlib

/-!
Verification of `etcdctl make-mirror` (etcdctl/ctlv3/command/make_mirror_command.go).

The replication core is embedded shallowly: the watch/snapshot channels become
lists, the destination cluster becomes a log of issued Put and Txn calls plus
failure oracles (`Nat → Bool`, indexed by the number of calls issued so far),
and the `total` counter updated with `atomic.AddInt64` becomes an `Int` field
threaded through the state.  `mirror.NewSyncer` / `SyncUpdates` live in
`client/v3/mirror`, outside this snapshot; the one fact taken from the spec
about them is the revision the watch starts from (see `syncUpdatesStartRev`).
-/

namespace MakeMirror

/-- Event types of `mvccpb.Event_EventType`: the protobuf enum names PUT and
DELETE; any other wire value falls into the Go switch's `default` branch,
modelled by `UNKNOWN`. -/
inductive EventType where
  | PUT
  | DELETE
  | UNKNOWN
deriving DecidableEq, Repr

/-- The fields of `mvccpb.KeyValue` the command reads: Key, Value, ModRevision. -/
structure KeyValue where
  key : List Char
  value : List Char
  modRevision : Int
deriving DecidableEq, Repr

/-- A `clientv3.Event` as the command reads it: `ev.Type` and `ev.Kv`. -/
structure Event where
  type : EventType
  kv : KeyValue
deriving DecidableEq, Repr

/-- A `clientv3.WatchResponse` as the command reads it: `wr.CompactRevision`
and `wr.Events`. -/
structure WatchResponse where
  compactRevision : Int
  events : List Event
deriving DecidableEq, Repr

/-- A pending destination operation: `clientv3.OpPut` / `clientv3.OpDelete`. -/
inductive Op where
  | opPut (key value : List Char)
  | opDelete (key : List Char)
deriving DecidableEq, Repr

/-- Go's `strings.Replace(s, old, new, 1)`: replace the first occurrence of
`old` in `s` (an empty `old` matches immediately, inserting `new` in front). -/
def replaceFirst (old new : List Char) (s : List Char) : List Char :=
  if old.isPrefixOf s then new ++ s.drop old.length
  else
    match s with
    | [] => []
    | c :: rest => c :: replaceFirst old new rest

/-- `modifyPrefix` (make_mirror_command.go line 241): rewrite `key` by
replacing the first occurrence of the source `sp` with the destination `dp`.
The Go function reads the globals `mmprefix` and `mmdestprefix`; here they are
passed explicitly because `makeMirror` mutates `mmdestprefix` on one path. -/
def modifyPrefix (sp dp : List Char) (key : List Char) : List Char :=
  replaceFirst sp dp key

/-- Run-terminating conditions of `makeMirror`. `configConflict` is the
`ExitWithError(ExitBadArgs, ...)` for `--dest-prefix` plus `--no-dest-prefix`;
`panicUnexpectedEventType` is the `panic("unexpected event type")`; the rest
are returned errors. -/
inductive RunError where
  | configConflict
  | putFailed
  | syncBaseFailed
  | txnFailed
  | errCompacted
  | panicUnexpectedEventType
deriving DecidableEq, Repr

/-- Observable run state: the `total` counter, the snapshot `Put` calls issued
(key/value, in order), and the `Txn` bodies committed to the destination, in
commit order. -/
structure RunState where
  total : Int
  puts : List (List Char × List Char)
  txns : List (List Op)
deriving DecidableEq, Repr

def zeroS : RunState := { total := 0, puts := [], txns := [] }

/-- A `dc.Txn(ctx).Then(ops...).Commit()` call: the oracle `tf`, indexed by
the number of transactions committed so far, decides whether the destination
rejects it.  On success the body is appended to the commit log. -/
def commit (tf : Nat → Bool) (st : RunState) (ops : List Op) :
    RunState × Option RunError :=
  if tf st.txns.length then (st, some RunError.txnFailed)
  else ({ st with txns := st.txns ++ [ops] }, none)

/-- Lines 200-207: flush the pending group when the incoming event's revision
passed the group's revision (`lastRev != 0 && nextRev > lastRev`). -/
def stepBoundary (tf : Nat → Bool) (lastRev nextRev : Int) (st : RunState)
    (ops : List Op) : RunState × List Op × Option RunError :=
  if lastRev ≠ 0 ∧ nextRev > lastRev then
    match commit tf st ops with
    | (st1, e) => (st1, [], e)
  else (st, ops, none)

/-- Lines 210-216: flush the pending group when it holds `mmmaxTxnOps`
operations. -/
def stepSize (tf : Nat → Bool) (m : Nat) (st : RunState) (ops : List Op) :
    RunState × List Op × Option RunError :=
  if ops.length = m then
    match commit tf st ops with
    | (st1, e) => (st1, [], e)
  else (st, ops, none)

/-- Lines 199-228, the `for _, ev := range wr.Events` loop: boundary flush,
`lastRev = nextRev`, size flush, then classify the event (PUT appends an
upsert and bumps `total`, DELETE appends a delete and bumps `total`, anything
else panics).  Returns the state, the pending group and the terminal error,
if any. -/
def procEvents (sp dp : List Char) (tf : Nat → Bool) (m : Nat) :
    RunState → Int → List Op → List Event →
      RunState × List Op × Option RunError
  | st, _lastRev, ops, [] => (st, ops, none)
  | st, lastRev, ops, ev :: rest =>
    match stepBoundary tf lastRev ev.kv.modRevision st ops with
    | (st1, ops1, some e) => (st1, ops1, some e)
    | (st1, ops1, none) =>
      match stepSize tf m st1 ops1 with
      | (st2, ops2, some e) => (st2, ops2, some e)
      | (st2, ops2, none) =>
        match ev.type with
        | EventType.PUT =>
          procEvents sp dp tf m { st2 with total := st2.total + 1 }
            ev.kv.modRevision
            (ops2 ++ [Op.opPut (modifyPrefix sp dp ev.kv.key) ev.kv.value])
            rest
        | EventType.DELETE =>
          procEvents sp dp tf m { st2 with total := st2.total + 1 }
            ev.kv.modRevision
            (ops2 ++ [Op.opDelete (modifyPrefix sp dp ev.kv.key)])
            rest
        | EventType.UNKNOWN =>
          (st2, ops2, some RunError.panicUnexpectedEventType)

/-- One iteration of `for wr := range wc` (lines 191-236): a non-zero
`CompactRevision` returns `ErrCompacted` at once; otherwise the events are
processed with `lastRev` and `ops` freshly zeroed, and a non-empty leftover
group is committed. -/
def procResponse (sp dp : List Char) (tf : Nat → Bool) (m : Nat)
    (st : RunState) (wr : WatchResponse) : RunState × Option RunError :=
  if wr.compactRevision ≠ 0 then (st, some RunError.errCompacted)
  else
    match procEvents sp dp tf m st 0 [] wr.events with
    | (st1, _, some e) => (st1, some e)
    | (st1, ops1, none) =>
      if ops1 ≠ [] then commit tf st1 ops1 else (st1, none)

/-- The whole `for wr := range wc` loop over the watch channel's contents. -/
def procStream (sp dp : List Char) (tf : Nat → Bool) (m : Nat) :
    RunState → List WatchResponse → RunState × Option RunError
  | st, [] => (st, none)
  | st, wr :: rest =>
    match procResponse sp dp tf m st wr with
    | (st1, some e) => (st1, some e)
    | (st1, none) => procStream sp dp tf m st1 rest

/-- Lines 174-180, the inner snapshot loop over `r.Kvs`: each pair is written
with `dc.Put`; the oracle `pf`, indexed by the number of Puts issued so far,
decides failure (fail-fast, counter not bumped); on success `total` grows. -/
def procSnapshotKvs (sp dp : List Char) (pf : Nat → Bool) :
    RunState → List KeyValue → RunState × Option RunError
  | st, [] => (st, none)
  | st, kv :: rest =>
    let st1 :=
      { st with puts := st.puts ++ [(modifyPrefix sp dp kv.key, kv.value)] }
    if pf st.puts.length then (st1, some RunError.putFailed)
    else procSnapshotKvs sp dp pf { st1 with total := st1.total + 1 } rest

/-- Lines 173-181, `for r := range rc`: the snapshot channel delivers
`GetResponse`s, each holding a list of key-value pairs. -/
def procSnapshot (sp dp : List Char) (pf : Nat → Bool) :
    RunState → List (List KeyValue) → RunState × Option RunError
  | st, [] => (st, none)
  | st, chunk :: rest =>
    match procSnapshotKvs sp dp pf st chunk with
    | (st1, some e) => (st1, some e)
    | (st1, none) => procSnapshot sp dp pf st1 rest

/-- The flag globals read by `makeMirror`: `mmprefix`, `mmdestprefix`,
`mmnodestprefix`, `mmrev`, `mmmaxTxnOps`. -/
structure Config where
  mmPrefix : List Char
  mmDestPrefix : List Char
  mmNoDestPrefix : Bool
  mmRev : Int
  mmMaxTxnOps : Nat
deriving DecidableEq, Repr

/-- Lines 156-159: `startRev := mmrev - 1; if startRev < 0 { startRev = 0 }`. -/
def startRevOf (cfg : Config) : Int :=
  if cfg.mmRev - 1 < 0 then 0 else cfg.mmRev - 1

/-- Modelled from the spec: `mirror.NewSyncer(c, mmprefix, startRev)` and
`s.SyncUpdates(ctx)` live in `client/v3/mirror`, which is not part of this
snapshot.  The spec states that the incremental phase "begins watching from
revision r - 1" when the run starts at revision r, i.e. from the `startRev`
the syncer was constructed with. -/
def syncUpdatesStartRev (startRev : Int) : Int := startRev

/-- What one run feeds the command: the `SyncBase` channel contents and its
terminal error signal, and the `SyncUpdates` watch channel contents. -/
structure SourceData where
  chunks : List (List KeyValue)
  baseErr : Bool
  responses : List WatchResponse
deriving DecidableEq, Repr

/-- A run's observable outcome. -/
structure RunResult where
  state : RunState
  err : Option RunError
  syncBaseCalled : Bool
  watchFrom : Option Int
deriving DecidableEq, Repr

/-- `makeMirror` (lines 141-239): reject the flag conflict, compute
`startRev`; when it is 0 run the snapshot phase — where, and only where, the
empty `mmdestprefix` is defaulted to `mmprefix` (lines 169-171) — then in
either case drain the watch channel.  `syncBaseCalled` records whether
`SyncBase` was invoked and `watchFrom` the revision `SyncUpdates` starts
from, when it is reached. -/
def makeMirror (cfg : Config) (src : SourceData) (pf tf : Nat → Bool) :
    RunResult :=
  if cfg.mmNoDestPrefix ∧ cfg.mmDestPrefix ≠ [] then
    { state := zeroS, err := some RunError.configConflict,
      syncBaseCalled := false, watchFrom := none }
  else
    if startRevOf cfg = 0 then
      let dp :=
        if ¬ cfg.mmNoDestPrefix ∧ cfg.mmDestPrefix = [] then cfg.mmPrefix
        else cfg.mmDestPrefix
      match procSnapshot cfg.mmPrefix dp pf zeroS src.chunks with
      | (st1, some e) =>
        { state := st1, err := some e, syncBaseCalled := true,
          watchFrom := none }
      | (st1, none) =>
        if src.baseErr then
          { state := st1, err := some RunError.syncBaseFailed,
            syncBaseCalled := true, watchFrom := none }
        else
          match procStream cfg.mmPrefix dp tf cfg.mmMaxTxnOps st1
              src.responses with
          | (st2, e) =>
            { state := st2, err := e, syncBaseCalled := true,
              watchFrom := some (syncUpdatesStartRev (startRevOf cfg)) }
    else
      match procStream cfg.mmPrefix cfg.mmDestPrefix tf cfg.mmMaxTxnOps zeroS
          src.responses with
      | (st2, e) =>
        { state := st2, err := e, syncBaseCalled := false,
          watchFrom := some (syncUpdatesStartRev (startRevOf cfg)) }

/-- How the process ends.  Every constructor is a process termination:
`badArgs` is `ExitWithError(ExitBadArgs, ...)` (bad argument count, or the
prefix-flag conflict inside `makeMirror`), `exitWith e` the final
`ExitWithError(ExitError, err)` of `makeMirrorCommandFunc`, and `panicked`
an uncaught Go panic (its message is printed by the runtime and the process
dies; nothing recovers it on the way up). -/
inductive CmdExit where
  | badArgs
  | exitWith (e : Option RunError)
  | panicked
deriving DecidableEq, Repr

/-- `makeMirrorCommandFunc` (lines 105-139) as the exit it produces: argument
check, client construction, then `makeMirror`, whose returned error is passed
to `ExitWithError(ExitError, ...)`; a config conflict already exited inside
`makeMirror`, and a panic tears the process down uncaught. -/
def makeMirrorCommandFunc (nArgs : Nat) (cfg : Config) (src : SourceData)
    (pf tf : Nat → Bool) : CmdExit :=
  if nArgs ≠ 1 then CmdExit.badArgs
  else
    match (makeMirror cfg src pf tf).err with
    | some RunError.configConflict => CmdExit.badArgs
    | some RunError.panicUnexpectedEventType => CmdExit.panicked
    | e => CmdExit.exitWith e

/-- Externally visible steps of the command, in order.  `createClient` is a
`mustClient` / `mustClientFromCmd` call establishing a client connection;
`exitError` a process-terminating error report; the rest are network
operations against the clusters. -/
inductive CmdAction where
  | createClient
  | exitError
  | syncBase
  | watchStart
  | putCall
  | txnCall
deriving DecidableEq, Repr

/-- The ordered action trace of `makeMirror`: the conflict check runs first
and exits on its own; otherwise the snapshot phase (if entered) issues its
Puts, the watch is started, the commits are issued, and the run ends with the
terminal report. -/
def runTrace (cfg : Config) (src : SourceData) (pf tf : Nat → Bool) :
    List CmdAction :=
  if cfg.mmNoDestPrefix ∧ cfg.mmDestPrefix ≠ [] then [CmdAction.exitError]
  else
    (if (makeMirror cfg src pf tf).syncBaseCalled then
      CmdAction.syncBase ::
        (makeMirror cfg src pf tf).state.puts.map (fun _ => CmdAction.putCall)
    else []) ++
    (match (makeMirror cfg src pf tf).watchFrom with
      | some _ => [CmdAction.watchStart]
      | none => []) ++
    (makeMirror cfg src pf tf).state.txns.map (fun _ => CmdAction.txnCall) ++
    [CmdAction.exitError]

/-- The ordered action trace of `makeMirrorCommandFunc`: the argument check,
then `mustClient(cc)` and `mustClientFromCmd(cmd)` (lines 134-135), and only
then `makeMirror` with everything it does — the flag-conflict check
included. -/
def commandTrace (nArgs : Nat) (cfg : Config) (src : SourceData)
    (pf tf : Nat → Bool) : List CmdAction :=
  if nArgs ≠ 1 then [CmdAction.exitError]
  else CmdAction.createClient :: CmdAction.createClient ::
    runTrace cfg src pf tf

/-- The all-success destination oracle. -/
def noFail : Nat → Bool := fun _ => false

/-- The operation a classified PUT or DELETE event contributes (lines 220 and
223); an UNKNOWN event contributes nothing, it panics. -/
def evOp (sp dp : List Char) (e : Event) : Op :=
  match e.type with
  | EventType.PUT => Op.opPut (modifyPrefix sp dp e.kv.key) e.kv.value
  | _ => Op.opDelete (modifyPrefix sp dp e.kv.key)

/-- Split a list into consecutive chunks of `n` elements, the last chunk
holding between 1 and `n`.  Describes the commit grouping the size-flush rule
produces on a single-revision event run. -/
def chunkList {α : Type} (n : Nat) : List α → List (List α)
  | [] => []
  | x :: xs => (x :: xs.take (n - 1)) :: chunkList n (xs.drop (n - 1))
termination_by l => l.length
decreasing_by simp only [List.length_drop, List.length_cons]; omega

theorem chunkList_nil {α : Type} (n : Nat) : chunkList n ([] : List α) = [] := by
  simp only [chunkList]

theorem chunkList_cons {α : Type} (n : Nat) (x : α) (xs : List α) :
    chunkList n (x :: xs) = (x :: xs.take (n - 1)) :: chunkList n (xs.drop (n - 1)) := by
  simp only [chunkList]

theorem chunkList_ne_nil {α : Type} (n : Nat) (l : List α) (h : l ≠ []) :
    chunkList n l ≠ [] := by
  cases l with
  | nil => exact absurd rfl h
  | cons x xs => rw [chunkList_cons]; exact List.cons_ne_nil _ _

theorem chunkList_of_length_le {α : Type} (n : Nat) (l : List α)
    (h1 : l ≠ []) (h2 : l.length ≤ n) : chunkList n l = [l] := by
  cases l with
  | nil => exact absurd rfl h1
  | cons x xs =>
    rw [chunkList_cons]
    have hx : xs.length ≤ n - 1 := by simp at h2; omega
    rw [List.take_of_length_le hx, List.drop_eq_nil_of_le hx, chunkList_nil]

theorem chunkList_append_full {α : Type} (n : Nat) (p l : List α)
    (hn : 1 ≤ n) (hp : p.length = n) : chunkList n (p ++ l) = p :: chunkList n l := by
  cases p with
  | nil => simp at hp; omega
  | cons x xs =>
    rw [List.cons_append, chunkList_cons]
    have hx : xs.length = n - 1 := by simp at hp; omega
    rw [← hx, List.take_left, List.drop_left]

theorem chunkList_flatten {α : Type} (n : Nat) (hn : 1 ≤ n) :
    ∀ l : List α, (chunkList n l).flatten = l
  | [] => by rw [chunkList_nil]; rfl
  | x :: xs => by
    rw [chunkList_cons, List.flatten_cons,
      chunkList_flatten n hn (xs.drop (n - 1))]
    simp [List.take_append_drop]
termination_by l => l.length
decreasing_by simp only [List.length_drop, List.length_cons]; omega

theorem chunkList_length {α : Type} (n : Nat) (hn : 1 ≤ n) :
    ∀ l : List α, (chunkList n l).length = (l.length + n - 1) / n
  | [] => by
    rw [chunkList_nil]
    have h1 : (0 : Nat) + n - 1 < n := by omega
    rw [List.length_nil, List.length_nil, Nat.div_eq_of_lt h1]
  | x :: xs => by
    rw [chunkList_cons, List.length_cons,
      chunkList_length n hn (xs.drop (n - 1))]
    rw [List.length_drop, List.length_cons]
    rcases le_or_lt xs.length (n - 1) with h | h
    · have h0 : xs.length - (n - 1) = 0 := by omega
      rw [h0]
      have e1 : (0 : Nat) + n - 1 < n := by omega
      have e2 : xs.length + 1 + n - 1 = xs.length + n := by omega
      rw [e2, Nat.div_eq_of_lt e1, Nat.add_div_right _ (by omega : 0 < n),
        Nat.div_eq_of_lt (by omega : xs.length < n)]
    · have e1 : xs.length - (n - 1) + n - 1 = xs.length := by omega
      have e2 : xs.length + 1 + n - 1 = xs.length + n := by omega
      rw [e1, e2, Nat.add_div_right _ (by omega : 0 < n)]
termination_by l => l.length
decreasing_by simp only [List.length_drop, List.length_cons]; omega

theorem mem_chunkList_ne_nil {α : Type} (n : Nat) :
    ∀ (l : List α), ∀ c ∈ chunkList n l, c ≠ []
  | [], c, hc => by rw [chunkList_nil] at hc; cases hc
  | x :: xs, c, hc => by
    rw [chunkList_cons] at hc
    rcases List.mem_cons.mp hc with h | h
    · subst h; exact List.cons_ne_nil _ _
    · exact mem_chunkList_ne_nil n (xs.drop (n - 1)) c h
termination_by l => l.length
decreasing_by simp only [List.length_drop, List.length_cons]; omega

theorem mem_chunkList_length_le {α : Type} (n : Nat) (hn : 1 ≤ n) :
    ∀ (l : List α), ∀ c ∈ chunkList n l, c.length ≤ n
  | [], c, hc => by rw [chunkList_nil] at hc; cases hc
  | x :: xs, c, hc => by
    rw [chunkList_cons] at hc
    rcases List.mem_cons.mp hc with h | h
    · subst h
      have := List.length_take_le (n - 1) xs
      simp only [List.length_cons]
      omega
    · exact mem_chunkList_length_le n hn (xs.drop (n - 1)) c h
termination_by l => l.length
decreasing_by simp only [List.length_drop, List.length_cons]; omega

theorem getLastD_congr {β : Type} (d1 d2 : β) (L : List β) (h : L ≠ []) :
    L.getLastD d1 = L.getLastD d2 := by
  cases L with
  | nil => exact absurd rfl h
  | cons x xs => rw [List.getLastD_cons, List.getLastD_cons]

theorem dropLast_concat_getLastD {β : Type} (d : β) (L : List β) (h : L ≠ []) :
    L.dropLast ++ [L.getLastD d] = L := by
  have h1 : L.getLastD d = L.getLast h := by
    rw [List.getLastD_eq_getLast?, List.getLast?_eq_getLast L h]
    rfl
  rw [h1, List.dropLast_append_getLast h]

theorem stepBoundary_not (tf : Nat → Bool) (lastRev nextRev : Int)
    (st : RunState) (ops : List Op)
    (h : ¬ (lastRev ≠ 0 ∧ nextRev > lastRev)) :
    stepBoundary tf lastRev nextRev st ops = (st, ops, none) := by
  rw [stepBoundary, if_neg h]

theorem stepBoundary_flush (lastRev nextRev : Int) (st : RunState)
    (ops : List Op) (h : lastRev ≠ 0 ∧ nextRev > lastRev) :
    stepBoundary noFail lastRev nextRev st ops =
      ({ st with txns := st.txns ++ [ops] }, [], none) := by
  rw [stepBoundary, if_pos h]
  rfl

theorem stepSize_not (tf : Nat → Bool) (m : Nat) (st : RunState)
    (ops : List Op) (h : ¬ ops.length = m) :
    stepSize tf m st ops = (st, ops, none) := by
  rw [stepSize, if_neg h]

theorem stepSize_flush (m : Nat) (st : RunState) (ops : List Op)
    (h : ops.length = m) :
    stepSize noFail m st ops = ({ st with txns := st.txns ++ [ops] }, [], none) := by
  rw [stepSize, if_pos h]
  rfl

theorem commit_noFail (st : RunState) (ops : List Op) :
    commit noFail st ops = ({ st with txns := st.txns ++ [ops] }, none) := rfl

/-- The size-chunking characterization of the event loop on a run of events
sharing one revision `r`: no boundary flush ever fires, so the loop commits
consecutive full groups of `m` operations and leaves the last partial group
pending. -/
theorem procEvents_sameRev (sp dp : List Char) (m : Nat) (hm : 1 ≤ m)
    (r : Int) (es : List Event) :
    ∀ (st : RunState) (lr : Int) (p : List Op),
      (∀ e ∈ es, e.kv.modRevision = r) →
      (∀ e ∈ es, e.type ≠ EventType.UNKNOWN) →
      (lr = 0 ∨ ¬ r > lr) →
      p.length ≤ m →
      procEvents sp dp noFail m st lr p es =
        ({ st with
            total := st.total + es.length,
            txns := st.txns ++
              (chunkList m (p ++ es.map (evOp sp dp))).dropLast },
          (chunkList m (p ++ es.map (evOp sp dp))).getLastD [],
          none) := by
  induction es with
  | nil =>
    intro st lr p _ _ _ hp
    by_cases hpn : p = []
    · subst hpn
      simp [procEvents, chunkList_nil]
    · rw [procEvents]
      rw [List.map_nil, List.append_nil, chunkList_of_length_le m p hpn hp]
      simp
  | cons e rest ih =>
    intro st lr p h1 h2 h3 hp
    have her : e.kv.modRevision = r := h1 e (List.mem_cons_self e rest)
    have hety : e.type ≠ EventType.UNKNOWN := h2 e (List.mem_cons_self e rest)
    have hb : ¬ (lr ≠ 0 ∧ e.kv.modRevision > lr) := by
      rw [her]
      rcases h3 with h | h
      · exact fun c => c.1 h
      · exact fun c => h c.2
    have hrest1 : ∀ x ∈ rest, x.kv.modRevision = r := fun x hx =>
      h1 x (List.mem_cons_of_mem e hx)
    have hrest2 : ∀ x ∈ rest, x.type ≠ EventType.UNKNOWN := fun x hx =>
      h2 x (List.mem_cons_of_mem e hx)
    have hlr2 : e.kv.modRevision = 0 ∨ ¬ r > e.kv.modRevision := by
      right
      rw [her]
      exact lt_irrefl r
    rw [procEvents, stepBoundary_not noFail lr e.kv.modRevision st p hb]
    dsimp only
    rcases eq_or_ne p.length m with hpm | hpm
    · -- size flush fires: the full group p is committed, e starts a new group
      rw [stepSize_flush m st p hpm]
      dsimp only
      have hchunk :
          chunkList m (p ++ (e :: rest).map (evOp sp dp)) =
            p :: chunkList m ((e :: rest).map (evOp sp dp)) :=
        chunkList_append_full m p _ hm hpm
      have hcne : chunkList m ((e :: rest).map (evOp sp dp)) ≠ [] :=
        chunkList_ne_nil m _ (by simp)
      rw [hchunk, List.dropLast_cons_of_ne_nil hcne, List.getLastD_cons,
        ← getLastD_congr [] p _ hcne]
      rcases e with ⟨ty, kv⟩
      cases ty with
      | PUT =>
        rw [ih { st with txns := st.txns ++ [p], total := st.total + 1 }
          kv.modRevision ([] ++ [Op.opPut (modifyPrefix sp dp kv.key) kv.value])
          hrest1 hrest2 hlr2 (by simp; omega)]
        simp only [List.map_cons, evOp, List.nil_append, List.append_assoc,
          List.singleton_append, List.length_cons, Prod.mk.injEq,
          RunState.mk.injEq, and_true, true_and]
        omega
      | DELETE =>
        rw [ih { st with txns := st.txns ++ [p], total := st.total + 1 }
          kv.modRevision ([] ++ [Op.opDelete (modifyPrefix sp dp kv.key)])
          hrest1 hrest2 hlr2 (by simp; omega)]
        simp only [List.map_cons, evOp, List.nil_append, List.append_assoc,
          List.singleton_append, List.length_cons, Prod.mk.injEq,
          RunState.mk.injEq, and_true, true_and]
        omega
      | UNKNOWN => exact absurd rfl hety
    · -- no size flush: e joins the pending group
      rw [stepSize_not noFail m st p hpm]
      dsimp only
      rcases e with ⟨ty, kv⟩
      cases ty with
      | PUT =>
        rw [ih { st with total := st.total + 1 } kv.modRevision
          (p ++ [Op.opPut (modifyPrefix sp dp kv.key) kv.value])
          hrest1 hrest2 hlr2 (by simp; omega)]
        simp only [List.map_cons, evOp, List.append_assoc,
          List.singleton_append, List.length_cons, Prod.mk.injEq,
          RunState.mk.injEq, and_true, true_and]
        omega
      | DELETE =>
        rw [ih { st with total := st.total + 1 } kv.modRevision
          (p ++ [Op.opDelete (modifyPrefix sp dp kv.key)])
          hrest1 hrest2 hlr2 (by simp; omega)]
        simp only [List.map_cons, evOp, List.append_assoc,
          List.singleton_append, List.length_cons, Prod.mk.injEq,
          RunState.mk.injEq, and_true, true_and]
        omega
      | UNKNOWN => exact absurd rfl hety

theorem getLastD_mem {β : Type} (d : β) (L : List β) (h : L ≠ []) :
    L.getLastD d ∈ L := by
  have h1 : L.getLastD d = L.getLast h := by
    rw [List.getLastD_eq_getLast?, List.getLast?_eq_getLast L h]
    rfl
  rw [h1]
  exact List.getLast_mem h

/-- A whole watch response of events sharing one revision commits exactly the
size-chunks of its operations, in order: the in-loop size flushes plus the
end-of-response flush of the leftover group. -/
theorem procResponse_sameRev (sp dp : List Char) (m : Nat) (hm : 1 ≤ m)
    (r : Int) (st : RunState) (wr : WatchResponse)
    (hc : wr.compactRevision = 0)
    (h1 : ∀ e ∈ wr.events, e.kv.modRevision = r)
    (h2 : ∀ e ∈ wr.events, e.type ≠ EventType.UNKNOWN) :
    procResponse sp dp noFail m st wr =
      ({ st with
          total := st.total + wr.events.length,
          txns := st.txns ++ chunkList m (wr.events.map (evOp sp dp)) },
        none) := by
  rw [procResponse, if_neg (fun h => h hc)]
  rw [procEvents_sameRev sp dp m hm r wr.events st 0 [] h1 h2 (Or.inl rfl)
    (by simp)]
  dsimp only
  simp only [List.nil_append]
  by_cases hev : wr.events = []
  · simp [hev, chunkList_nil]
  · have hcn : chunkList m (wr.events.map (evOp sp dp)) ≠ [] :=
      chunkList_ne_nil m _ (by simp [hev])
    have hpm : (chunkList m (wr.events.map (evOp sp dp))).getLastD [] ∈
        chunkList m (wr.events.map (evOp sp dp)) := getLastD_mem _ _ hcn
    have hpne : (chunkList m (wr.events.map (evOp sp dp))).getLastD [] ≠ [] :=
      mem_chunkList_ne_nil m _ _ hpm
    rw [if_pos hpne, commit_noFail]
    rw [List.append_assoc, dropLast_concat_getLastD [] _ hcn]

/-- Once a response signals compaction, the run returns `ErrCompacted` with
the state exactly as the prefix of the stream left it: nothing in or after
the signalling response is processed or committed. -/
theorem procStream_compacted (sp dp : List Char) (tf : Nat → Bool) (m : Nat)
    (xs : List WatchResponse) :
    ∀ (st stx : RunState), procStream sp dp tf m st xs = (stx, none) →
      ∀ (wr : WatchResponse) (ys : List WatchResponse),
        wr.compactRevision ≠ 0 →
        procStream sp dp tf m st (xs ++ wr :: ys) =
          (stx, some RunError.errCompacted) := by
  induction xs with
  | nil =>
    intro st stx hst wr ys hwr
    rw [procStream] at hst
    have hst1 : st = stx := congrArg Prod.fst hst
    subst hst1
    rw [List.nil_append, procStream, procResponse, if_pos hwr]
  | cons x xs ih =>
    intro st stx hst wr ys hwr
    rw [procStream] at hst
    rw [List.cons_append, procStream]
    rcases hpr : procResponse sp dp tf m st x with ⟨st1, oe⟩
    rw [hpr] at hst
    cases oe with
    | some e =>
      exact absurd (congrArg Prod.snd hst) (by simp)
    | none =>
      exact ih st1 stx hst wr ys hwr

/-- With no destination failures and no UNKNOWN event, the event loop
succeeds, bumps `total` once per event and leaves `puts` alone. -/
theorem procEvents_ok (sp dp : List Char) (m : Nat) (es : List Event) :
    ∀ (st : RunState) (lr : Int) (p : List Op),
      (∀ e ∈ es, e.type ≠ EventType.UNKNOWN) →
      ∃ T pend, procEvents sp dp noFail m st lr p es =
        ({ st with total := st.total + es.length, txns := T }, pend, none) := by
  induction es with
  | nil =>
    intro st lr p _
    exact ⟨st.txns, p, by simp [procEvents]⟩
  | cons e rest ih =>
    intro st lr p h2
    have hety : e.type ≠ EventType.UNKNOWN := h2 e (List.mem_cons_self e rest)
    have hrest2 : ∀ x ∈ rest, x.type ≠ EventType.UNKNOWN := fun x hx =>
      h2 x (List.mem_cons_of_mem e hx)
    rw [procEvents]
    by_cases hbc : lr ≠ 0 ∧ e.kv.modRevision > lr
    · rw [stepBoundary_flush lr e.kv.modRevision st p hbc]
      dsimp only
      by_cases hsz : ([] : List Op).length = m
      · rw [stepSize_flush m _ [] hsz]
        dsimp only
        rcases e with ⟨ty, kv⟩
        cases ty with
        | PUT =>
          obtain ⟨T, pend, hT⟩ := ih _ kv.modRevision
            ([] ++ [Op.opPut (modifyPrefix sp dp kv.key) kv.value]) hrest2
          rw [hT]
          exact ⟨T, pend, by simp only [Prod.mk.injEq, RunState.mk.injEq,
            and_true, true_and, List.length_cons]; omega⟩
        | DELETE =>
          obtain ⟨T, pend, hT⟩ := ih _ kv.modRevision
            ([] ++ [Op.opDelete (modifyPrefix sp dp kv.key)]) hrest2
          rw [hT]
          exact ⟨T, pend, by simp only [Prod.mk.injEq, RunState.mk.injEq,
            and_true, true_and, List.length_cons]; omega⟩
        | UNKNOWN => exact absurd rfl hety
      · rw [stepSize_not noFail m _ [] hsz]
        dsimp only
        rcases e with ⟨ty, kv⟩
        cases ty with
        | PUT =>
          obtain ⟨T, pend, hT⟩ := ih _ kv.modRevision
            ([] ++ [Op.opPut (modifyPrefix sp dp kv.key) kv.value]) hrest2
          rw [hT]
          exact ⟨T, pend, by simp only [Prod.mk.injEq, RunState.mk.injEq,
            and_true, true_and, List.length_cons]; omega⟩
        | DELETE =>
          obtain ⟨T, pend, hT⟩ := ih _ kv.modRevision
            ([] ++ [Op.opDelete (modifyPrefix sp dp kv.key)]) hrest2
          rw [hT]
          exact ⟨T, pend, by simp only [Prod.mk.injEq, RunState.mk.injEq,
            and_true, true_and, List.length_cons]; omega⟩
        | UNKNOWN => exact absurd rfl hety
    · rw [stepBoundary_not noFail lr e.kv.modRevision st p hbc]
      dsimp only
      by_cases hsz : p.length = m
      · rw [stepSize_flush m st p hsz]
        dsimp only
        rcases e with ⟨ty, kv⟩
        cases ty with
        | PUT =>
          obtain ⟨T, pend, hT⟩ := ih _ kv.modRevision
            ([] ++ [Op.opPut (modifyPrefix sp dp kv.key) kv.value]) hrest2
          rw [hT]
          exact ⟨T, pend, by simp only [Prod.mk.injEq, RunState.mk.injEq,
            and_true, true_and, List.length_cons]; omega⟩
        | DELETE =>
          obtain ⟨T, pend, hT⟩ := ih _ kv.modRevision
            ([] ++ [Op.opDelete (modifyPrefix sp dp kv.key)]) hrest2
          rw [hT]
          exact ⟨T, pend, by simp only [Prod.mk.injEq, RunState.mk.injEq,
            and_true, true_and, List.length_cons]; omega⟩
        | UNKNOWN => exact absurd rfl hety
      · rw [stepSize_not noFail m st p hsz]
        dsimp only
        rcases e with ⟨ty, kv⟩
        cases ty with
        | PUT =>
          obtain ⟨T, pend, hT⟩ := ih _ kv.modRevision
            (p ++ [Op.opPut (modifyPrefix sp dp kv.key) kv.value]) hrest2
          rw [hT]
          exact ⟨T, pend, by simp only [Prod.mk.injEq, RunState.mk.injEq,
            and_true, true_and, List.length_cons]; omega⟩
        | DELETE =>
          obtain ⟨T, pend, hT⟩ := ih _ kv.modRevision
            (p ++ [Op.opDelete (modifyPrefix sp dp kv.key)]) hrest2
          rw [hT]
          exact ⟨T, pend, by simp only [Prod.mk.injEq, RunState.mk.injEq,
            and_true, true_and, List.length_cons]; omega⟩
        | UNKNOWN => exact absurd rfl hety

/-- A compaction-free response without UNKNOWN events succeeds and bumps
`total` by its event count. -/
theorem procResponse_ok (sp dp : List Char) (m : Nat) (st : RunState)
    (wr : WatchResponse) (hc : wr.compactRevision = 0)
    (h2 : ∀ e ∈ wr.events, e.type ≠ EventType.UNKNOWN) :
    ∃ T, procResponse sp dp noFail m st wr =
      ({ st with total := st.total + wr.events.length, txns := T }, none) := by
  rw [procResponse, if_neg (fun h => h hc)]
  rcases procEvents_ok sp dp m wr.events st 0 [] h2 with ⟨T, pend, hT⟩
  rw [hT]
  dsimp only
  by_cases hpend : pend ≠ []
  · rw [if_pos hpend, commit_noFail]
    exact ⟨T ++ [pend], rfl⟩
  · rw [if_neg hpend]
    exact ⟨T, rfl⟩

/-- Total number of change events carried by a stream of responses. -/
def evCount (rs : List WatchResponse) : Nat :=
  (rs.map (fun wr => wr.events.length)).sum

/-- A clean stream (no compaction, no UNKNOWN events, no failures) succeeds
and bumps `total` by its total event count. -/
theorem procStream_ok (sp dp : List Char) (m : Nat) (rs : List WatchResponse) :
    ∀ (st : RunState),
      (∀ wr ∈ rs, wr.compactRevision = 0 ∧
        ∀ e ∈ wr.events, e.type ≠ EventType.UNKNOWN) →
      ∃ T, procStream sp dp noFail m st rs =
        ({ st with total := st.total + evCount rs, txns := T }, none) := by
  induction rs with
  | nil =>
    intro st _
    exact ⟨st.txns, by simp [procStream, evCount]⟩
  | cons wr rest ih =>
    intro st h
    rw [procStream]
    rcases procResponse_ok sp dp m st wr (h wr (List.mem_cons_self wr rest)).1
      (h wr (List.mem_cons_self wr rest)).2 with ⟨T1, hT1⟩
    rw [hT1]
    dsimp only
    obtain ⟨T2, hT2⟩ := ih _ (fun x hx => h x (List.mem_cons_of_mem wr hx))
    rw [hT2]
    refine ⟨T2, ?_⟩
    simp only [Prod.mk.injEq, RunState.mk.injEq, and_true, true_and, evCount,
      List.map_cons, List.sum_cons]
    push_cast
    ring

/-- The snapshot inner loop with no Put failures: every pair is issued, in
order, and `total` grows once per pair; `txns` is untouched. -/
theorem procSnapshotKvs_ok (sp dp : List Char) (kvs : List KeyValue) :
    ∀ (st : RunState),
      procSnapshotKvs sp dp noFail st kvs =
        ({ st with
            total := st.total + kvs.length,
            puts := st.puts ++
              kvs.map (fun kv => (modifyPrefix sp dp kv.key, kv.value)) },
          none) := by
  induction kvs with
  | nil => intro st; simp [procSnapshotKvs]
  | cons kv rest ih =>
    intro st
    rw [procSnapshotKvs]
    simp only [noFail, if_neg Bool.false_ne_true]
    rw [ih]
    simp only [Prod.mk.injEq, RunState.mk.injEq, and_true, true_and,
      List.map_cons, List.length_cons, List.append_assoc,
      List.singleton_append]
    push_cast
    ring

/-- The snapshot outer loop with no Put failures. -/
theorem procSnapshot_ok (sp dp : List Char) (chunks : List (List KeyValue)) :
    ∀ (st : RunState),
      procSnapshot sp dp noFail st chunks =
        ({ st with
            total := st.total + chunks.flatten.length,
            puts := st.puts ++
              chunks.flatten.map
                (fun kv => (modifyPrefix sp dp kv.key, kv.value)) },
          none) := by
  induction chunks with
  | nil => intro st; simp [procSnapshot]
  | cons c rest ih =>
    intro st
    rw [procSnapshot, procSnapshotKvs_ok sp dp c st]
    dsimp only
    rw [ih]
    simp only [Prod.mk.injEq, RunState.mk.injEq, and_true, true_and,
      List.flatten_cons, List.map_append, List.length_append,
      List.append_assoc]
    push_cast
    ring

/-- An event of unknown kind panics the event loop: processing stops at the
first UNKNOWN event, the counter having counted exactly the well-formed
events before it, and nothing after it is classified or committed. -/
theorem procEvents_panic (sp dp : List Char) (m : Nat) (es1 : List Event) :
    ∀ (st : RunState) (lr : Int) (p : List Op) (bad : Event)
      (es2 : List Event),
      (∀ e ∈ es1, e.type ≠ EventType.UNKNOWN) →
      bad.type = EventType.UNKNOWN →
      ∃ st2 ops2, procEvents sp dp noFail m st lr p (es1 ++ bad :: es2) =
        (st2, ops2, some RunError.panicUnexpectedEventType) ∧
        st2.total = st.total + es1.length ∧ st2.puts = st.puts := by
  induction es1 with
  | nil =>
    intro st lr p bad es2 _ hbad
    rcases bad with ⟨ty, kv⟩
    cases hbad
    rw [List.nil_append, procEvents]
    by_cases hbc : lr ≠ 0 ∧ kv.modRevision > lr
    · rw [stepBoundary_flush lr kv.modRevision st p hbc]
      dsimp only
      by_cases hsz : ([] : List Op).length = m
      · rw [stepSize_flush m _ [] hsz]
        dsimp only
        exact ⟨_, _, rfl, by simp, rfl⟩
      · rw [stepSize_not noFail m _ [] hsz]
        dsimp only
        exact ⟨_, _, rfl, by simp, rfl⟩
    · rw [stepBoundary_not noFail lr kv.modRevision st p hbc]
      dsimp only
      by_cases hsz : p.length = m
      · rw [stepSize_flush m st p hsz]
        dsimp only
        exact ⟨_, _, rfl, by simp, rfl⟩
      · rw [stepSize_not noFail m st p hsz]
        dsimp only
        exact ⟨_, _, rfl, by simp, rfl⟩
  | cons e rest ih =>
    intro st lr p bad es2 h1 hbad
    have hety : e.type ≠ EventType.UNKNOWN := h1 e (List.mem_cons_self e rest)
    have hrest : ∀ x ∈ rest, x.type ≠ EventType.UNKNOWN := fun x hx =>
      h1 x (List.mem_cons_of_mem e hx)
    rw [List.cons_append, procEvents]
    by_cases hbc : lr ≠ 0 ∧ e.kv.modRevision > lr
    · rw [stepBoundary_flush lr e.kv.modRevision st p hbc]
      dsimp only
      by_cases hsz : ([] : List Op).length = m
      · rw [stepSize_flush m _ [] hsz]
        dsimp only
        rcases e with ⟨ty, kv⟩
        cases ty with
        | PUT =>
          obtain ⟨st2, ops2, hT, htot, hpu⟩ := ih _ kv.modRevision
            ([] ++ [Op.opPut (modifyPrefix sp dp kv.key) kv.value]) bad es2
            hrest hbad
          exact ⟨st2, ops2, hT, by simp only [htot]; simp; omega, hpu⟩
        | DELETE =>
          obtain ⟨st2, ops2, hT, htot, hpu⟩ := ih _ kv.modRevision
            ([] ++ [Op.opDelete (modifyPrefix sp dp kv.key)]) bad es2
            hrest hbad
          exact ⟨st2, ops2, hT, by simp only [htot]; simp; omega, hpu⟩
        | UNKNOWN => exact absurd rfl hety
      · rw [stepSize_not noFail m _ [] hsz]
        dsimp only
        rcases e with ⟨ty, kv⟩
        cases ty with
        | PUT =>
          obtain ⟨st2, ops2, hT, htot, hpu⟩ := ih _ kv.modRevision
            ([] ++ [Op.opPut (modifyPrefix sp dp kv.key) kv.value]) bad es2
            hrest hbad
          exact ⟨st2, ops2, hT, by simp only [htot]; simp; omega, hpu⟩
        | DELETE =>
          obtain ⟨st2, ops2, hT, htot, hpu⟩ := ih _ kv.modRevision
            ([] ++ [Op.opDelete (modifyPrefix sp dp kv.key)]) bad es2
            hrest hbad
          exact ⟨st2, ops2, hT, by simp only [htot]; simp; omega, hpu⟩
        | UNKNOWN => exact absurd rfl hety
    · rw [stepBoundary_not noFail lr e.kv.modRevision st p hbc]
      dsimp only
      by_cases hsz : p.length = m
      · rw [stepSize_flush m st p hsz]
        dsimp only
        rcases e with ⟨ty, kv⟩
        cases ty with
        | PUT =>
          obtain ⟨st2, ops2, hT, htot, hpu⟩ := ih _ kv.modRevision
            ([] ++ [Op.opPut (modifyPrefix sp dp kv.key) kv.value]) bad es2
            hrest hbad
          exact ⟨st2, ops2, hT, by simp only [htot]; simp; omega, hpu⟩
        | DELETE =>
          obtain ⟨st2, ops2, hT, htot, hpu⟩ := ih _ kv.modRevision
            ([] ++ [Op.opDelete (modifyPrefix sp dp kv.key)]) bad es2
            hrest hbad
          exact ⟨st2, ops2, hT, by simp only [htot]; simp; omega, hpu⟩
        | UNKNOWN => exact absurd rfl hety
      · rw [stepSize_not noFail m st p hsz]
        dsimp only
        rcases e with ⟨ty, kv⟩
        cases ty with
        | PUT =>
          obtain ⟨st2, ops2, hT, htot, hpu⟩ := ih _ kv.modRevision
            (p ++ [Op.opPut (modifyPrefix sp dp kv.key) kv.value]) bad es2
            hrest hbad
          exact ⟨st2, ops2, hT, by simp only [htot]; simp; omega, hpu⟩
        | DELETE =>
          obtain ⟨st2, ops2, hT, htot, hpu⟩ := ih _ kv.modRevision
            (p ++ [Op.opDelete (modifyPrefix sp dp kv.key)]) bad es2
            hrest hbad
          exact ⟨st2, ops2, hT, by simp only [htot]; simp; omega, hpu⟩
        | UNKNOWN => exact absurd rfl hety

/-!
A revision-annotated shadow of the incremental loop, used to state which
source revision each committed operation came from: it is the same code with
every pending operation paired with the `ModRevision` of the event it was
built from.  `procStreamA_erase` proves that dropping the annotations gives
back `procStream` exactly.
-/

/-- Annotated run state: the commit log keeps, besides each operation, the
revision of the event it derives from. -/
structure AState where
  total : Int
  txns : List (List (Op × Int))
deriving DecidableEq, Repr

def zeroA : AState := { total := 0, txns := [] }

def commitA (tf : Nat → Bool) (st : AState) (ops : List (Op × Int)) :
    AState × Option RunError :=
  if tf st.txns.length then (st, some RunError.txnFailed)
  else ({ st with txns := st.txns ++ [ops] }, none)

def stepBoundaryA (tf : Nat → Bool) (lastRev nextRev : Int) (st : AState)
    (ops : List (Op × Int)) : AState × List (Op × Int) × Option RunError :=
  if lastRev ≠ 0 ∧ nextRev > lastRev then
    match commitA tf st ops with
    | (st1, e) => (st1, [], e)
  else (st, ops, none)

def stepSizeA (tf : Nat → Bool) (m : Nat) (st : AState)
    (ops : List (Op × Int)) : AState × List (Op × Int) × Option RunError :=
  if ops.length = m then
    match commitA tf st ops with
    | (st1, e) => (st1, [], e)
  else (st, ops, none)

def procEventsA (sp dp : List Char) (tf : Nat → Bool) (m : Nat) :
    AState → Int → List (Op × Int) → List Event →
      AState × List (Op × Int) × Option RunError
  | st, _lastRev, ops, [] => (st, ops, none)
  | st, lastRev, ops, ev :: rest =>
    match stepBoundaryA tf lastRev ev.kv.modRevision st ops with
    | (st1, ops1, some e) => (st1, ops1, some e)
    | (st1, ops1, none) =>
      match stepSizeA tf m st1 ops1 with
      | (st2, ops2, some e) => (st2, ops2, some e)
      | (st2, ops2, none) =>
        match ev.type with
        | EventType.PUT =>
          procEventsA sp dp tf m { st2 with total := st2.total + 1 }
            ev.kv.modRevision
            (ops2 ++ [(Op.opPut (modifyPrefix sp dp ev.kv.key) ev.kv.value,
              ev.kv.modRevision)])
            rest
        | EventType.DELETE =>
          procEventsA sp dp tf m { st2 with total := st2.total + 1 }
            ev.kv.modRevision
            (ops2 ++ [(Op.opDelete (modifyPrefix sp dp ev.kv.key),
              ev.kv.modRevision)])
            rest
        | EventType.UNKNOWN =>
          (st2, ops2, some RunError.panicUnexpectedEventType)

def procResponseA (sp dp : List Char) (tf : Nat → Bool) (m : Nat)
    (st : AState) (wr : WatchResponse) : AState × Option RunError :=
  if wr.compactRevision ≠ 0 then (st, some RunError.errCompacted)
  else
    match procEventsA sp dp tf m st 0 [] wr.events with
    | (st1, _, some e) => (st1, some e)
    | (st1, ops1, none) =>
      if ops1 ≠ [] then commitA tf st1 ops1 else (st1, none)

def procStreamA (sp dp : List Char) (tf : Nat → Bool) (m : Nat) :
    AState → List WatchResponse → AState × Option RunError
  | st, [] => (st, none)
  | st, wr :: rest =>
    match procResponseA sp dp tf m st wr with
    | (st1, some e) => (st1, some e)
    | (st1, none) => procStreamA sp dp tf m st1 rest

/-- Erase the revision annotations from a commit log. -/
def eraseTxns (T : List (List (Op × Int))) : List (List Op) :=
  T.map (List.map Prod.fst)

theorem stepBoundary_flush_fail (tf : Nat → Bool) (lr nr : Int)
    (st : RunState) (ops : List Op) (h : lr ≠ 0 ∧ nr > lr)
    (htf : tf st.txns.length = true) :
    stepBoundary tf lr nr st ops = (st, [], some RunError.txnFailed) := by
  rw [stepBoundary, if_pos h, commit, if_pos htf]

theorem stepBoundary_flush_ok (tf : Nat → Bool) (lr nr : Int)
    (st : RunState) (ops : List Op) (h : lr ≠ 0 ∧ nr > lr)
    (htf : tf st.txns.length = false) :
    stepBoundary tf lr nr st ops =
      ({ st with txns := st.txns ++ [ops] }, [], none) := by
  rw [stepBoundary, if_pos h, commit, if_neg (by simp [htf])]

theorem stepSize_flush_fail (tf : Nat → Bool) (m : Nat) (st : RunState)
    (ops : List Op) (h : ops.length = m) (htf : tf st.txns.length = true) :
    stepSize tf m st ops = (st, [], some RunError.txnFailed) := by
  rw [stepSize, if_pos h, commit, if_pos htf]

theorem stepSize_flush_ok (tf : Nat → Bool) (m : Nat) (st : RunState)
    (ops : List Op) (h : ops.length = m) (htf : tf st.txns.length = false) :
    stepSize tf m st ops = ({ st with txns := st.txns ++ [ops] }, [], none) := by
  rw [stepSize, if_pos h, commit, if_neg (by simp [htf])]

theorem stepBoundaryA_not (tf : Nat → Bool) (lr nr : Int) (st : AState)
    (ops : List (Op × Int)) (h : ¬ (lr ≠ 0 ∧ nr > lr)) :
    stepBoundaryA tf lr nr st ops = (st, ops, none) := by
  rw [stepBoundaryA, if_neg h]

theorem stepBoundaryA_flush_fail (tf : Nat → Bool) (lr nr : Int)
    (st : AState) (ops : List (Op × Int)) (h : lr ≠ 0 ∧ nr > lr)
    (htf : tf st.txns.length = true) :
    stepBoundaryA tf lr nr st ops = (st, [], some RunError.txnFailed) := by
  rw [stepBoundaryA, if_pos h, commitA, if_pos htf]

theorem stepBoundaryA_flush_ok (tf : Nat → Bool) (lr nr : Int)
    (st : AState) (ops : List (Op × Int)) (h : lr ≠ 0 ∧ nr > lr)
    (htf : tf st.txns.length = false) :
    stepBoundaryA tf lr nr st ops =
      ({ st with txns := st.txns ++ [ops] }, [], none) := by
  rw [stepBoundaryA, if_pos h, commitA, if_neg (by simp [htf])]

theorem stepSizeA_not (tf : Nat → Bool) (m : Nat) (st : AState)
    (ops : List (Op × Int)) (h : ¬ ops.length = m) :
    stepSizeA tf m st ops = (st, ops, none) := by
  rw [stepSizeA, if_neg h]

theorem stepSizeA_flush_fail (tf : Nat → Bool) (m : Nat) (st : AState)
    (ops : List (Op × Int)) (h : ops.length = m)
    (htf : tf st.txns.length = true) :
    stepSizeA tf m st ops = (st, [], some RunError.txnFailed) := by
  rw [stepSizeA, if_pos h, commitA, if_pos htf]

theorem stepSizeA_flush_ok (tf : Nat → Bool) (m : Nat) (st : AState)
    (ops : List (Op × Int)) (h : ops.length = m)
    (htf : tf st.txns.length = false) :
    stepSizeA tf m st ops = ({ st with txns := st.txns ++ [ops] }, [], none) := by
  rw [stepSizeA, if_pos h, commitA, if_neg (by simp [htf])]

/-- Dropping the revision annotations from the annotated event loop gives the
real event loop: same control flow, same commits, same error. -/
theorem procEventsA_erase (sp dp : List Char) (tf : Nat → Bool) (m : Nat)
    (es : List Event) :
    ∀ (stA : AState) (st : RunState) (lr : Int) (pA : List (Op × Int))
      (p : List Op),
      st.txns = eraseTxns stA.txns → st.total = stA.total →
      p = pA.map Prod.fst →
      procEvents sp dp tf m st lr p es =
        ({ st with
            total := (procEventsA sp dp tf m stA lr pA es).1.total,
            txns := eraseTxns (procEventsA sp dp tf m stA lr pA es).1.txns },
          (procEventsA sp dp tf m stA lr pA es).2.1.map Prod.fst,
          (procEventsA sp dp tf m stA lr pA es).2.2) := by
  induction es with
  | nil =>
    intro stA st lr pA p h1 h2 h3
    rw [procEvents, procEventsA]
    dsimp only
    rw [← h1, ← h2, h3]
  | cons e rest ih =>
    intro stA st lr pA p h1 h2 h3
    have hltx : st.txns.length = stA.txns.length := by
      rw [h1, eraseTxns, List.length_map]
    have hlp : p.length = pA.length := by
      rw [h3, List.length_map]
    rw [procEvents, procEventsA]
    by_cases hbc : lr ≠ 0 ∧ e.kv.modRevision > lr
    · rcases htf : tf stA.txns.length with _ | _
      · -- first commit succeeds
        rw [stepBoundary_flush_ok tf lr e.kv.modRevision st p hbc
            (by rw [hltx]; exact htf),
          stepBoundaryA_flush_ok tf lr e.kv.modRevision stA pA hbc htf]
        dsimp only
        by_cases hsz : (0 : Nat) = m
        · have hsz1 : ([] : List Op).length = m := hsz
          have hsz2 : ([] : List (Op × Int)).length = m := hsz
          rcases htf2 : tf (stA.txns ++ [pA]).length with _ | _
          · rw [stepSize_flush_ok tf m _ [] hsz1
                (by simp only [h1, eraseTxns, List.length_append,
                  List.length_map, List.length_cons, List.length_nil]
                    at htf2 ⊢
                    simpa using htf2),
              stepSizeA_flush_ok tf m _ [] hsz2 htf2]
            dsimp only
            rcases e with ⟨ty, kv⟩
            cases ty with
            | PUT =>
              dsimp only
              refine ih _ _ _ _ _ ?_ ?_ ?_
              · simp [h1, h3, eraseTxns]
              · simp [h2]
              · simp
            | DELETE =>
              dsimp only
              refine ih _ _ _ _ _ ?_ ?_ ?_
              · simp [h1, h3, eraseTxns]
              · simp [h2]
              · simp
            | UNKNOWN =>
              simp [h1, h2, h3, eraseTxns]
          · rw [stepSize_flush_fail tf m _ [] hsz1
                (by simp only [h1, eraseTxns, List.length_append,
                  List.length_map, List.length_cons, List.length_nil]
                    at htf2 ⊢
                    simpa using htf2),
              stepSizeA_flush_fail tf m _ [] hsz2 htf2]
            dsimp only
            simp [h1, h2, h3, eraseTxns]
        · have hsz1 : ¬ ([] : List Op).length = m := hsz
          have hsz2 : ¬ ([] : List (Op × Int)).length = m := hsz
          rw [stepSize_not tf m _ [] hsz1, stepSizeA_not tf m _ [] hsz2]
          dsimp only
          rcases e with ⟨ty, kv⟩
          cases ty with
          | PUT =>
            dsimp only
            refine ih _ _ _ _ _ ?_ ?_ ?_
            · simp [h1, h3, eraseTxns]
            · simp [h2]
            · simp
          | DELETE =>
            dsimp only
            refine ih _ _ _ _ _ ?_ ?_ ?_
            · simp [h1, h3, eraseTxns]
            · simp [h2]
            · simp
          | UNKNOWN =>
            simp [h1, h2, h3, eraseTxns]
      · -- first commit fails
        rw [stepBoundary_flush_fail tf lr e.kv.modRevision st p hbc
            (by rw [hltx]; exact htf),
          stepBoundaryA_flush_fail tf lr e.kv.modRevision stA pA hbc htf]
        dsimp only
        simp only [List.map_nil, Prod.mk.injEq, and_true, true_and]
        rw [← h1, ← h2]
    · rw [stepBoundary_not tf lr e.kv.modRevision st p hbc,
        stepBoundaryA_not tf lr e.kv.modRevision stA pA hbc]
      dsimp only
      by_cases hsz : pA.length = m
      · rcases htf2 : tf stA.txns.length with _ | _
        · rw [stepSize_flush_ok tf m st p (by rw [hlp]; exact hsz)
              (by rw [hltx]; exact htf2),
            stepSizeA_flush_ok tf m stA pA hsz htf2]
          dsimp only
          rcases e with ⟨ty, kv⟩
          cases ty with
          | PUT =>
            dsimp only
            refine ih _ _ _ _ _ ?_ ?_ ?_
            · simp [h1, h3, eraseTxns]
            · simp [h2]
            · simp
          | DELETE =>
            dsimp only
            refine ih _ _ _ _ _ ?_ ?_ ?_
            · simp [h1, h3, eraseTxns]
            · simp [h2]
            · simp
          | UNKNOWN =>
            simp [h1, h2, h3, eraseTxns]
        · rw [stepSize_flush_fail tf m st p (by rw [hlp]; exact hsz)
              (by rw [hltx]; exact htf2),
            stepSizeA_flush_fail tf m stA pA hsz htf2]
          dsimp only
          simp only [List.map_nil, Prod.mk.injEq, and_true, true_and]
          rw [← h1, ← h2]
      · rw [stepSize_not tf m st p (by rw [hlp]; exact hsz),
          stepSizeA_not tf m stA pA hsz]
        dsimp only
        rcases e with ⟨ty, kv⟩
        cases ty with
        | PUT =>
          dsimp only
          refine ih _ _ _ _ _ ?_ ?_ ?_
          · simp [h1, h3, eraseTxns]
          · simp [h2]
          · simp [h3]
        | DELETE =>
          dsimp only
          refine ih _ _ _ _ _ ?_ ?_ ?_
          · simp [h1, h3, eraseTxns]
          · simp [h2]
          · simp [h3]
        | UNKNOWN =>
          dsimp only
          simp only [Prod.mk.injEq, h3, and_true, true_and]
          rw [← h1, ← h2]

/-- Response-level erasure: the annotated response processor erases to the
real one. -/
theorem procResponseA_erase (sp dp : List Char) (tf : Nat → Bool) (m : Nat)
    (stA : AState) (st : RunState) (wr : WatchResponse)
    (h1 : st.txns = eraseTxns stA.txns) (h2 : st.total = stA.total) :
    procResponse sp dp tf m st wr =
      ({ st with
          total := (procResponseA sp dp tf m stA wr).1.total,
          txns := eraseTxns (procResponseA sp dp tf m stA wr).1.txns },
        (procResponseA sp dp tf m stA wr).2) := by
  rw [procResponse, procResponseA]
  by_cases hc : wr.compactRevision ≠ 0
  · rw [if_pos hc, if_pos hc]
    dsimp only
    simp only [Prod.mk.injEq, and_true, true_and]
    rw [← h1, ← h2]
  · rw [if_neg hc, if_neg hc]
    rw [procEventsA_erase sp dp tf m wr.events stA st 0 [] [] h1 h2 (by simp)]
    rcases hA : procEventsA sp dp tf m stA 0 [] wr.events with ⟨stA1, pend, oe⟩
    cases oe with
    | some e => rfl
    | none =>
      dsimp only
      by_cases hp : pend = []
      · rw [hp]
        simp
      · rw [if_pos (by simpa using hp), if_pos hp, commit, commitA]
        have hlen : (eraseTxns stA1.txns).length = stA1.txns.length := by
          rw [eraseTxns, List.length_map]
        rcases htf : tf stA1.txns.length with _ | _
        · rw [if_neg (by rw [hlen]; simp [htf])]
          simp [eraseTxns]
        · rw [if_pos (by rw [hlen]; exact htf)]
          simp

/-- Stream-level erasure: running the real incremental loop is running the
annotated loop and dropping the revision annotations. -/
theorem procStreamA_erase (sp dp : List Char) (tf : Nat → Bool) (m : Nat)
    (rs : List WatchResponse) :
    ∀ (stA : AState) (st : RunState),
      st.txns = eraseTxns stA.txns → st.total = stA.total →
      procStream sp dp tf m st rs =
        ({ st with
            total := (procStreamA sp dp tf m stA rs).1.total,
            txns := eraseTxns (procStreamA sp dp tf m stA rs).1.txns },
          (procStreamA sp dp tf m stA rs).2) := by
  induction rs with
  | nil =>
    intro stA st h1 h2
    rw [procStream, procStreamA]
    dsimp only
    rw [← h1, ← h2]
  | cons wr rest ih =>
    intro stA st h1 h2
    rw [procStream, procStreamA]
    rw [procResponseA_erase sp dp tf m stA st wr h1 h2]
    rcases hA : procResponseA sp dp tf m stA wr with ⟨stA1, oe⟩
    cases oe with
    | some e => rfl
    | none =>
      dsimp only
      exact ih stA1 _ (by simp) (by simp)

/-- The change-source contract on one response: revisions are positive and
arrive in non-decreasing order, starting at or after `lr`. -/
def NonDecr : Int → List Event → Prop
  | _, [] => True
  | lr, e :: rest =>
    (lr ≤ e.kv.modRevision ∧ 0 < e.kv.modRevision) ∧
      NonDecr e.kv.modRevision rest

def NonDecr.dec : (lr : Int) → (es : List Event) → Decidable (NonDecr lr es)
  | _, [] => Decidable.isTrue trivial
  | _, e :: rest =>
    @instDecidableAnd _ _ _ (NonDecr.dec e.kv.modRevision rest)

instance (lr : Int) (es : List Event) : Decidable (NonDecr lr es) :=
  NonDecr.dec lr es

/-- What the incremental phase commits, one transaction at a time: non-empty,
at most `m` operations, and all operations annotated with one (positive)
source revision. -/
def GoodTxnA (m : Nat) (t : List (Op × Int)) : Prop :=
  t ≠ [] ∧ t.length ≤ m ∧ ∃ r : Int, 0 < r ∧ ∀ x ∈ t, x.2 = r

/-- The batching invariant of the annotated event loop: whatever the
destination oracle does, every committed transaction is a `GoodTxnA`, and the
leftover group is bounded and single-revision too. -/
theorem procEventsA_good (sp dp : List Char) (tf : Nat → Bool) (m : Nat)
    (hm : 1 ≤ m) (es : List Event) :
    ∀ (st : AState) (lr : Int) (p : List (Op × Int)),
      (∀ x ∈ p, x.2 = lr) → p.length ≤ m → (lr = 0 → p = []) →
      (lr ≠ 0 → p ≠ []) → 0 ≤ lr → NonDecr lr es →
      (∀ t ∈ st.txns, GoodTxnA m t) →
      (∀ t ∈ (procEventsA sp dp tf m st lr p es).1.txns, GoodTxnA m t) ∧
      (procEventsA sp dp tf m st lr p es).2.1.length ≤ m ∧
      ((procEventsA sp dp tf m st lr p es).2.1 ≠ [] →
        ∃ r : Int, 0 < r ∧
          ∀ x ∈ (procEventsA sp dp tf m st lr p es).2.1, x.2 = r) := by
  induction es with
  | nil =>
    intro st lr p hrev hlen hz hne h0 _ htx
    rw [procEventsA]
    refine ⟨htx, hlen, fun hp => ⟨lr, ?_, hrev⟩⟩
    have : lr ≠ 0 := fun h => hp (hz h)
    omega
  | cons e rest ih =>
    intro st lr p hrev hlen hz hne h0 hnd htx
    obtain ⟨⟨hle, hpos⟩, hnd2⟩ := hnd
    rcases e with ⟨ty, kv⟩
    dsimp only at hle hpos hnd2
    rw [procEventsA]
    dsimp only
    by_cases hbc : lr ≠ 0 ∧ kv.modRevision > lr
    · have hpne : p ≠ [] := hne hbc.1
      have hlr0 : 0 < lr := by
        rcases hbc with ⟨h, _⟩
        omega
      have hgood : GoodTxnA m p := ⟨hpne, hlen, lr, hlr0, hrev⟩
      rcases htf : tf st.txns.length with _ | _
      · rw [stepBoundaryA_flush_ok tf lr kv.modRevision st p hbc htf]
        dsimp only
        have htx2 : ∀ t ∈ st.txns ++ [p], GoodTxnA m t := by
          intro t ht
          rcases List.mem_append.mp ht with h | h
          · exact htx t h
          · rw [List.mem_singleton.mp h]
            exact hgood
        have hsz : ¬ ([] : List (Op × Int)).length = m := by
          simp
          omega
        rw [stepSizeA_not tf m _ [] hsz]
        dsimp only
        cases ty with
        | PUT =>
          refine ih _ kv.modRevision _ ?_ ?_ ?_ ?_ ?_ hnd2 htx2
          · intro x hx
            rcases List.mem_singleton.mp (by simpa using hx) with h
            rw [h]
          · simp
            omega
          · intro h
            exact absurd h (by omega)
          · intro _
            simp
          · omega
        | DELETE =>
          refine ih _ kv.modRevision _ ?_ ?_ ?_ ?_ ?_ hnd2 htx2
          · intro x hx
            rcases List.mem_singleton.mp (by simpa using hx) with h
            rw [h]
          · simp
            omega
          · intro h
            exact absurd h (by omega)
          · intro _
            simp
          · omega
        | UNKNOWN =>
          refine ⟨htx2, by simp, fun hp => absurd rfl hp⟩
      · rw [stepBoundaryA_flush_fail tf lr kv.modRevision st p hbc htf]
        dsimp only
        refine ⟨htx, by simp, fun hp => absurd rfl hp⟩
    · rw [stepBoundaryA_not tf lr kv.modRevision st p hbc]
      dsimp only
      have hrevE : ∀ x ∈ p, x.2 = kv.modRevision := by
        intro x hx
        rcases eq_or_ne lr 0 with h | h
        · rw [hz h] at hx
          cases hx
        · have : ¬ kv.modRevision > lr := fun hgt => hbc ⟨h, hgt⟩
          have : kv.modRevision = lr := by omega
          rw [this]
          exact hrev x hx
      by_cases hsz : p.length = m
      · have hpne : p ≠ [] := by
          intro h
          rw [h] at hsz
          simp at hsz
          omega
        have hlr0 : 0 < lr := by
          have : lr ≠ 0 := fun h => hpne (hz h)
          omega
        have hgood : GoodTxnA m p := ⟨hpne, hlen, lr, hlr0, hrev⟩
        rcases htf : tf st.txns.length with _ | _
        · rw [stepSizeA_flush_ok tf m st p hsz htf]
          dsimp only
          have htx2 : ∀ t ∈ st.txns ++ [p], GoodTxnA m t := by
            intro t ht
            rcases List.mem_append.mp ht with h | h
            · exact htx t h
            · rw [List.mem_singleton.mp h]
              exact hgood
          cases ty with
          | PUT =>
            refine ih _ kv.modRevision _ ?_ ?_ ?_ ?_ ?_ hnd2 htx2
            · intro x hx
              rcases List.mem_singleton.mp (by simpa using hx) with h
              rw [h]
            · simp
              omega
            · intro h
              exact absurd h (by omega)
            · intro _
              simp
            · omega
          | DELETE =>
            refine ih _ kv.modRevision _ ?_ ?_ ?_ ?_ ?_ hnd2 htx2
            · intro x hx
              rcases List.mem_singleton.mp (by simpa using hx) with h
              rw [h]
            · simp
              omega
            · intro h
              exact absurd h (by omega)
            · intro _
              simp
            · omega
          | UNKNOWN =>
            refine ⟨htx2, by simp, fun hp => absurd rfl hp⟩
        · rw [stepSizeA_flush_fail tf m st p hsz htf]
          dsimp only
          refine ⟨htx, by simp, fun hp => absurd rfl hp⟩
      · rw [stepSizeA_not tf m st p hsz]
        dsimp only
        cases ty with
        | PUT =>
          refine ih _ kv.modRevision _ ?_ ?_ ?_ ?_ ?_ hnd2 htx
          · intro x hx
            rcases List.mem_append.mp hx with h | h
            · exact hrevE x h
            · rw [List.mem_singleton.mp h]
          · simp
            omega
          · intro h
            exact absurd h (by omega)
          · intro _
            simp
          · omega
        | DELETE =>
          refine ih _ kv.modRevision _ ?_ ?_ ?_ ?_ ?_ hnd2 htx
          · intro x hx
            rcases List.mem_append.mp hx with h | h
            · exact hrevE x h
            · rw [List.mem_singleton.mp h]
          · simp
            omega
          · intro h
            exact absurd h (by omega)
          · intro _
            simp
          · omega
        | UNKNOWN =>
          refine ⟨htx, hlen, fun hp => ⟨lr, ?_, hrev⟩⟩
          have : lr ≠ 0 := fun h => hp (hz h)
          omega

/-- Response-level batching invariant. -/
theorem procResponseA_good (sp dp : List Char) (tf : Nat → Bool) (m : Nat)
    (hm : 1 ≤ m) (st : AState) (wr : WatchResponse)
    (hnd : NonDecr 0 wr.events) (htx : ∀ t ∈ st.txns, GoodTxnA m t) :
    ∀ t ∈ (procResponseA sp dp tf m st wr).1.txns, GoodTxnA m t := by
  rw [procResponseA]
  by_cases hc : wr.compactRevision ≠ 0
  · rw [if_pos hc]
    exact htx
  · rw [if_neg hc]
    obtain ⟨hgood, hplen, hprev⟩ := procEventsA_good sp dp tf m hm wr.events
      st 0 [] (by simp) (by simp) (fun _ => rfl) (fun h => absurd rfl h)
      le_rfl hnd htx
    rcases hA : procEventsA sp dp tf m st 0 [] wr.events with ⟨st1, pend, oe⟩
    rw [hA] at hgood hplen hprev
    dsimp only at hgood hplen hprev
    cases oe with
    | some e => exact hgood
    | none =>
      dsimp only
      by_cases hp : pend ≠ []
      · rw [if_pos hp, commitA]
        rcases htf : tf st1.txns.length with _ | _
        · rw [if_neg (by simp)]
          intro t ht
          rcases List.mem_append.mp ht with h | h
          · exact hgood t h
          · rw [List.mem_singleton.mp h]
            obtain ⟨r, hr, hall⟩ := hprev hp
            exact ⟨hp, hplen, r, hr, hall⟩
        · rw [if_pos rfl]
          exact hgood
      · rw [if_neg hp]
        exact hgood

/-- Stream-level batching invariant: every transaction the incremental phase
ever commits is non-empty, within the size bound, and single-revision. -/
theorem procStreamA_good (sp dp : List Char) (tf : Nat → Bool) (m : Nat)
    (hm : 1 ≤ m) (rs : List WatchResponse) :
    ∀ (st : AState),
      (∀ wr ∈ rs, NonDecr 0 wr.events) →
      (∀ t ∈ st.txns, GoodTxnA m t) →
      ∀ t ∈ (procStreamA sp dp tf m st rs).1.txns, GoodTxnA m t := by
  induction rs with
  | nil =>
    intro st _ htx
    rw [procStreamA]
    exact htx
  | cons wr rest ih =>
    intro st hnd htx
    rw [procStreamA]
    have h1 := procResponseA_good sp dp tf m hm st wr
      (hnd wr (List.mem_cons_self wr rest)) htx
    rcases hA : procResponseA sp dp tf m st wr with ⟨st1, oe⟩
    rw [hA] at h1
    dsimp only at h1
    cases oe with
    | some e => exact h1
    | none =>
      dsimp only
      exact ih st1 (fun x hx => hnd x (List.mem_cons_of_mem wr hx)) h1

/-- C1: with a starting revision of 5 (so the snapshot phase is skipped),
source prefix `/a/`, no `--dest-prefix` and no `--no-dest-prefix`, the key
`/a/x` is written to the destination as `x`: the defaulting of the empty
destination prefix to the source prefix (lines 169-171) sits inside the
`startRev == 0` branch and never runs, so the identity mapping the spec
promises does not hold — the prefix is stripped instead. -/
theorem C1_nonzero_rev_strips_source_key :
    (makeMirror
        { mmPrefix := ['/', 'a', '/'], mmDestPrefix := [],
          mmNoDestPrefix := false, mmRev := 5, mmMaxTxnOps := 128 }
        { chunks := [], baseErr := false,
          responses :=
            [{ compactRevision := 0,
               events :=
                 [{ type := EventType.PUT,
                    kv := { key := ['/', 'a', '/', 'x'], value := ['v'],
                            modRevision := 5 } }] }] }
        noFail noFail).state.txns = [[Op.opPut ['x'] ['v']]] ∧
    (['x'] : List Char) ≠ ['/', 'a', '/', 'x'] := by
  exact ⟨by decide, by decide⟩

/-- C2 counterexample: with starting revision r = 1 (which is > 0) the
snapshot phase is not skipped: `startRev` clamps to 0, `SyncBase` runs and a
snapshot Put is issued, contradicting the claim that the snapshot phase
performs no work for every non-zero r, including r = 1. -/
theorem C2_rev_one_counterexample :
    (makeMirror
        { mmPrefix := [], mmDestPrefix := [], mmNoDestPrefix := false,
          mmRev := 1, mmMaxTxnOps := 128 }
        { chunks := [[{ key := ['k'], value := ['w'], modRevision := 1 }]],
          baseErr := false, responses := [] }
        noFail noFail).syncBaseCalled = true ∧
    (makeMirror
        { mmPrefix := [], mmDestPrefix := [], mmNoDestPrefix := false,
          mmRev := 1, mmMaxTxnOps := 128 }
        { chunks := [[{ key := ['k'], value := ['w'], modRevision := 1 }]],
          baseErr := false, responses := [] }
        noFail noFail).state.puts = [(['k'], ['w'])] ∧
    ((1 : Int) > 0) := by
  exact ⟨by decide, by decide, by decide⟩

/-- C2 amended: for every starting revision r > 1 (not r > 0: r = 1 clamps
`startRev` to 0 and runs the snapshot), the snapshot phase is skipped — no
`SyncBase`, no snapshot Puts — and the incremental watch starts from
revision r - 1. -/
theorem C2_skip_snapshot_above_one (cfg : Config) (src : SourceData)
    (pf tf : Nat → Bool)
    (hc : ¬ (cfg.mmNoDestPrefix ∧ cfg.mmDestPrefix ≠ []))
    (hr : 1 < cfg.mmRev) :
    (makeMirror cfg src pf tf).syncBaseCalled = false ∧
    (makeMirror cfg src pf tf).state.puts = [] ∧
    (makeMirror cfg src pf tf).watchFrom = some (cfg.mmRev - 1) := by
  have h0 : startRevOf cfg = cfg.mmRev - 1 := by
    rw [startRevOf, if_neg (by omega)]
  have h1 : ¬ startRevOf cfg = 0 := by
    rw [h0]
    omega
  rw [makeMirror, if_neg hc, if_neg h1]
  rw [procStreamA_erase cfg.mmPrefix cfg.mmDestPrefix tf cfg.mmMaxTxnOps
    src.responses zeroA zeroS rfl rfl]
  dsimp only
  refine ⟨rfl, rfl, ?_⟩
  rw [syncUpdatesStartRev, h0]

/-- C2 witness: starting revision 42 skips the snapshot phase and watches
from revision 41, matching the spec's worked example. -/
theorem C2_skip_snapshot_witness :
    (makeMirror
        { mmPrefix := [], mmDestPrefix := [], mmNoDestPrefix := false,
          mmRev := 42, mmMaxTxnOps := 128 }
        { chunks := [], baseErr := false, responses := [] }
        noFail noFail).syncBaseCalled = false ∧
    (makeMirror
        { mmPrefix := [], mmDestPrefix := [], mmNoDestPrefix := false,
          mmRev := 42, mmMaxTxnOps := 128 }
        { chunks := [], baseErr := false, responses := [] }
        noFail noFail).state.puts = [] ∧
    (makeMirror
        { mmPrefix := [], mmDestPrefix := [], mmNoDestPrefix := false,
          mmRev := 42, mmMaxTxnOps := 128 }
        { chunks := [], baseErr := false, responses := [] }
        noFail noFail).watchFrom = some 41 := by
  have h := C2_skip_snapshot_above_one
    { mmPrefix := [], mmDestPrefix := [], mmNoDestPrefix := false,
      mmRev := 42, mmMaxTxnOps := 128 }
    { chunks := [], baseErr := false, responses := [] }
    noFail noFail (by decide) (by decide)
  refine ⟨h.1, h.2.1, ?_⟩
  rw [h.2.2]
  decide

/-- C3 counterexample: with `--no-dest-prefix` and a `--dest-prefix` both
set, the command's action trace is client, client, error exit — both client
connections are established before the configuration is rejected, refuting
"no client connection is established". -/
theorem C3_clients_before_conflict_check :
    commandTrace 1
        { mmPrefix := ['a'], mmDestPrefix := ['b'], mmNoDestPrefix := true,
          mmRev := 0, mmMaxTxnOps := 128 }
        { chunks := [], baseErr := false, responses := [] }
        noFail noFail =
      [CmdAction.createClient, CmdAction.createClient, CmdAction.exitError] := by
  decide

/-- C3 amended: when both prefix flags are supplied, the run is rejected as a
configuration error before any snapshot, watch, Put or Txn call is issued —
but after both client connections have been established, because
`makeMirror`'s conflict check runs only after `mustClient` and
`mustClientFromCmd`. -/
theorem C3_conflict_rejected_before_run (cfg : Config) (src : SourceData)
    (pf tf : Nat → Bool) (h1 : cfg.mmNoDestPrefix = true)
    (h2 : cfg.mmDestPrefix ≠ []) :
    commandTrace 1 cfg src pf tf =
      [CmdAction.createClient, CmdAction.createClient, CmdAction.exitError] ∧
    (makeMirror cfg src pf tf).err = some RunError.configConflict ∧
    CmdAction.syncBase ∉ commandTrace 1 cfg src pf tf ∧
    CmdAction.watchStart ∉ commandTrace 1 cfg src pf tf ∧
    CmdAction.putCall ∉ commandTrace 1 cfg src pf tf ∧
    CmdAction.txnCall ∉ commandTrace 1 cfg src pf tf := by
  have hcc : cfg.mmNoDestPrefix ∧ cfg.mmDestPrefix ≠ [] := ⟨h1, h2⟩
  have ht : commandTrace 1 cfg src pf tf =
      [CmdAction.createClient, CmdAction.createClient, CmdAction.exitError] := by
    rw [commandTrace, if_neg (by omega), runTrace, if_pos hcc]
  refine ⟨ht, ?_, ?_, ?_, ?_, ?_⟩
  · rw [makeMirror, if_pos hcc]
  · rw [ht]
    simp
  · rw [ht]
    simp
  · rw [ht]
    simp
  · rw [ht]
    simp

/-- C3 witness: the amended statement at a concrete conflicting
configuration. -/
theorem C3_conflict_witness :
    commandTrace 1
        { mmPrefix := ['a'], mmDestPrefix := ['c'], mmNoDestPrefix := true,
          mmRev := 7, mmMaxTxnOps := 4 }
        { chunks := [], baseErr := false, responses := [] } noFail noFail =
      [CmdAction.createClient, CmdAction.createClient, CmdAction.exitError] ∧
    (makeMirror
        { mmPrefix := ['a'], mmDestPrefix := ['c'], mmNoDestPrefix := true,
          mmRev := 7, mmMaxTxnOps := 4 }
        { chunks := [], baseErr := false, responses := [] }
        noFail noFail).err = some RunError.configConflict ∧
    CmdAction.syncBase ∉ commandTrace 1
        { mmPrefix := ['a'], mmDestPrefix := ['c'], mmNoDestPrefix := true,
          mmRev := 7, mmMaxTxnOps := 4 }
        { chunks := [], baseErr := false, responses := [] } noFail noFail ∧
    CmdAction.watchStart ∉ commandTrace 1
        { mmPrefix := ['a'], mmDestPrefix := ['c'], mmNoDestPrefix := true,
          mmRev := 7, mmMaxTxnOps := 4 }
        { chunks := [], baseErr := false, responses := [] } noFail noFail ∧
    CmdAction.putCall ∉ commandTrace 1
        { mmPrefix := ['a'], mmDestPrefix := ['c'], mmNoDestPrefix := true,
          mmRev := 7, mmMaxTxnOps := 4 }
        { chunks := [], baseErr := false, responses := [] } noFail noFail ∧
    CmdAction.txnCall ∉ commandTrace 1
        { mmPrefix := ['a'], mmDestPrefix := ['c'], mmNoDestPrefix := true,
          mmRev := 7, mmMaxTxnOps := 4 }
        { chunks := [], baseErr := false, responses := [] } noFail noFail :=
  C3_conflict_rejected_before_run _ _ noFail noFail (by decide) (by decide)

/-- C4: a watch response whose events all share one revision and number at
most the transaction limit is committed to the destination in exactly one
atomic transaction holding all of them, in order. -/
theorem C4_single_revision_one_txn (sp dp : List Char) (m : Nat)
    (st : RunState) (wr : WatchResponse) (r : Int) (hm : 1 ≤ m)
    (hc : wr.compactRevision = 0)
    (hrev : ∀ e ∈ wr.events, e.kv.modRevision = r)
    (hty : ∀ e ∈ wr.events, e.type ≠ EventType.UNKNOWN)
    (hne : wr.events ≠ []) (hlen : wr.events.length ≤ m) :
    procStream sp dp noFail m st [wr] =
      ({ st with
          total := st.total + wr.events.length,
          txns := st.txns ++ [wr.events.map (evOp sp dp)] },
        none) := by
  rw [procStream, procResponse_sameRev sp dp m hm r st wr hc hrev hty,
    chunkList_of_length_le m _ (by simpa using hne) (by simpa using hlen)]
  dsimp only
  rw [procStream]

/-- C4 witness: two same-revision events under a limit of 3 commit as one
transaction of two operations. -/
theorem C4_one_txn_witness :
    procStream ['a'] ['b'] noFail 3 zeroS
        [{ compactRevision := 0,
           events :=
             [{ type := EventType.PUT,
                kv := { key := ['a', '1'], value := ['v'], modRevision := 7 } },
              { type := EventType.DELETE,
                kv := { key := ['a', '2'], value := [], modRevision := 7 } }] }] =
      ({ total := 2, puts := [],
         txns := [[Op.opPut ['b', '1'] ['v'], Op.opDelete ['b', '2']]] },
        none) := by
  rw [C4_single_revision_one_txn ['a'] ['b'] 3 zeroS _ 7 (by decide)
    (by decide) (by decide) (by decide) (by decide) (by decide)]
  decide

/-- C5: a watch response whose events all share one revision but exceed the
transaction limit is committed across ⌈count / m⌉ transactions whose
concatenation, in commit order, is exactly the event operations in arrival
order. -/
theorem C5_oversize_revision_chunked (sp dp : List Char) (m : Nat)
    (st : RunState) (wr : WatchResponse) (r : Int) (hm : 1 ≤ m)
    (hc : wr.compactRevision = 0)
    (hrev : ∀ e ∈ wr.events, e.kv.modRevision = r)
    (hty : ∀ e ∈ wr.events, e.type ≠ EventType.UNKNOWN)
    (_hbig : m < wr.events.length) :
    procStream sp dp noFail m st [wr] =
      ({ st with
          total := st.total + wr.events.length,
          txns := st.txns ++ chunkList m (wr.events.map (evOp sp dp)) },
        none) ∧
    (chunkList m (wr.events.map (evOp sp dp))).length =
      (wr.events.length + m - 1) / m ∧
    (chunkList m (wr.events.map (evOp sp dp))).flatten =
      wr.events.map (evOp sp dp) := by
  refine ⟨?_, ?_, ?_⟩
  · rw [procStream, procResponse_sameRev sp dp m hm r st wr hc hrev hty]
    dsimp only
    rw [procStream]
  · rw [chunkList_length m hm, List.length_map]
  · exact chunkList_flatten m hm _

/-- C5 witness: five same-revision events under a limit of 2 commit as
⌈5/2⌉ = 3 transactions of sizes 2, 2, 1, preserving order. -/
theorem C5_chunked_witness :
    procStream [] [] noFail 2 zeroS
        [{ compactRevision := 0,
           events :=
             [{ type := EventType.PUT,
                kv := { key := ['1'], value := ['v'], modRevision := 9 } },
              { type := EventType.PUT,
                kv := { key := ['2'], value := ['v'], modRevision := 9 } },
              { type := EventType.PUT,
                kv := { key := ['3'], value := ['v'], modRevision := 9 } },
              { type := EventType.PUT,
                kv := { key := ['4'], value := ['v'], modRevision := 9 } },
              { type := EventType.PUT,
                kv := { key := ['5'], value := ['v'], modRevision := 9 } }] }] =
      ({ total := 5, puts := [],
         txns := [[Op.opPut ['1'] ['v'], Op.opPut ['2'] ['v']],
                  [Op.opPut ['3'] ['v'], Op.opPut ['4'] ['v']],
                  [Op.opPut ['5'] ['v']]] },
        none) := by
  have h := C5_oversize_revision_chunked [] [] 2 zeroS
    { compactRevision := 0,
      events :=
        [{ type := EventType.PUT,
           kv := { key := ['1'], value := ['v'], modRevision := 9 } },
         { type := EventType.PUT,
           kv := { key := ['2'], value := ['v'], modRevision := 9 } },
         { type := EventType.PUT,
           kv := { key := ['3'], value := ['v'], modRevision := 9 } },
         { type := EventType.PUT,
           kv := { key := ['4'], value := ['v'], modRevision := 9 } },
         { type := EventType.PUT,
           kv := { key := ['5'], value := ['v'], modRevision := 9 } }] }
    9 (by decide) (by decide) (by decide) (by decide) (by decide)
  rw [h.1]
  norm_num [chunkList_cons, chunkList_nil, zeroS, evOp, modifyPrefix,
    replaceFirst]

/-- C6: a compaction signal terminates the run with the compaction error and
the destination state exactly as the stream prefix before the signal left
it: no event in or after the signalling response is committed. -/
theorem C6_compaction_terminates (sp dp : List Char) (tf : Nat → Bool)
    (m : Nat) (xs : List WatchResponse) (st stx : RunState)
    (wr : WatchResponse) (ys : List WatchResponse)
    (hxs : procStream sp dp tf m st xs = (stx, none))
    (hwr : wr.compactRevision ≠ 0) :
    procStream sp dp tf m st (xs ++ wr :: ys) =
      (stx, some RunError.errCompacted) :=
  procStream_compacted sp dp tf m xs st stx hxs wr ys hwr

/-- C6 witness: a stream of a clean response, a compacted response, and a
further response commits only the clean prefix and stops with the
compaction error. -/
theorem C6_compaction_witness :
    procStream [] [] noFail 4 zeroS
        [{ compactRevision := 0,
           events :=
             [{ type := EventType.PUT,
                kv := { key := ['k'], value := ['v'], modRevision := 3 } }] },
         { compactRevision := 9, events := [] },
         { compactRevision := 0,
           events :=
             [{ type := EventType.PUT,
                kv := { key := ['z'], value := ['w'], modRevision := 5 } }] }] =
      ({ total := 1, puts := [], txns := [[Op.opPut ['k'] ['v']]] },
        some RunError.errCompacted) :=
  C6_compaction_terminates [] [] noFail 4
    [{ compactRevision := 0,
       events :=
         [{ type := EventType.PUT,
            kv := { key := ['k'], value := ['v'], modRevision := 3 } }] }]
    zeroS { total := 1, puts := [], txns := [[Op.opPut ['k'] ['v']]] }
    { compactRevision := 9, events := [] }
    [{ compactRevision := 0,
       events :=
         [{ type := EventType.PUT,
            kv := { key := ['z'], value := ['w'], modRevision := 5 } }] }]
    (by decide) (by decide)

/-- C7: an event of a kind other than PUT or DELETE panics the run: the
terminal outcome is the unexpected-event-type panic, only the well-formed
events before it were classified (nothing after is processed), and the
command's process dies with that same panic — nothing catches or rewrites
it on the way up. -/
theorem C7_unknown_event_panics (cfg : Config) (src : SourceData)
    (pf : Nat → Bool) (es1 es2 : List Event) (bad : Event)
    (hc : ¬ (cfg.mmNoDestPrefix ∧ cfg.mmDestPrefix ≠ []))
    (hr : 1 < cfg.mmRev)
    (hsrc : src.responses =
      [{ compactRevision := 0, events := es1 ++ bad :: es2 }])
    (h1 : ∀ e ∈ es1, e.type ≠ EventType.UNKNOWN)
    (hbad : bad.type = EventType.UNKNOWN) :
    (makeMirror cfg src pf noFail).err =
      some RunError.panicUnexpectedEventType ∧
    (makeMirror cfg src pf noFail).state.total = es1.length ∧
    makeMirrorCommandFunc 1 cfg src pf noFail = CmdExit.panicked := by
  have hstart : ¬ startRevOf cfg = 0 := by
    rw [startRevOf, if_neg (by omega)]
    omega
  obtain ⟨st2, ops2, hT, htot, hpu⟩ := procEvents_panic cfg.mmPrefix
    cfg.mmDestPrefix cfg.mmMaxTxnOps es1 zeroS 0 [] bad es2 h1 hbad
  have hkey : makeMirror cfg src pf noFail =
      { state := st2, err := some RunError.panicUnexpectedEventType,
        syncBaseCalled := false,
        watchFrom := some (syncUpdatesStartRev (startRevOf cfg)) } := by
    rw [makeMirror, if_neg hc, if_neg hstart, hsrc, procStream, procResponse]
    dsimp only
    rw [if_neg (by decide : ¬ ((0 : Int) ≠ 0)), hT]
  refine ⟨by rw [hkey], ?_, ?_⟩
  · rw [hkey]
    rw [htot]
    simp [zeroS]
  · rw [makeMirrorCommandFunc, if_neg (by omega), hkey]

/-- C7 witness: a PUT followed by an UNKNOWN-kind event aborts with the
panic after classifying exactly one event, and the process dies. -/
theorem C7_unknown_event_witness :
    (makeMirror
        { mmPrefix := [], mmDestPrefix := [], mmNoDestPrefix := false,
          mmRev := 5, mmMaxTxnOps := 128 }
        { chunks := [], baseErr := false,
          responses :=
            [{ compactRevision := 0,
               events :=
                 [{ type := EventType.PUT,
                    kv := { key := ['k'], value := ['v'], modRevision := 6 } },
                  { type := EventType.UNKNOWN,
                    kv := { key := ['x'], value := [], modRevision := 6 } }] }] }
        noFail noFail).err = some RunError.panicUnexpectedEventType ∧
    (makeMirror
        { mmPrefix := [], mmDestPrefix := [], mmNoDestPrefix := false,
          mmRev := 5, mmMaxTxnOps := 128 }
        { chunks := [], baseErr := false,
          responses :=
            [{ compactRevision := 0,
               events :=
                 [{ type := EventType.PUT,
                    kv := { key := ['k'], value := ['v'], modRevision := 6 } },
                  { type := EventType.UNKNOWN,
                    kv := { key := ['x'], value := [], modRevision := 6 } }] }] }
        noFail noFail).state.total =
      ([{ type := EventType.PUT,
          kv := { key := ['k'], value := ['v'], modRevision := 6 } }] :
        List Event).length ∧
    makeMirrorCommandFunc 1
        { mmPrefix := [], mmDestPrefix := [], mmNoDestPrefix := false,
          mmRev := 5, mmMaxTxnOps := 128 }
        { chunks := [], baseErr := false,
          responses :=
            [{ compactRevision := 0,
               events :=
                 [{ type := EventType.PUT,
                    kv := { key := ['k'], value := ['v'], modRevision := 6 } },
                  { type := EventType.UNKNOWN,
                    kv := { key := ['x'], value := [], modRevision := 6 } }] }] }
        noFail noFail = CmdExit.panicked :=
  C7_unknown_event_panics _ _ noFail
    [{ type := EventType.PUT,
       kv := { key := ['k'], value := ['v'], modRevision := 6 } }]
    []
    { type := EventType.UNKNOWN,
      kv := { key := ['x'], value := [], modRevision := 6 } }
    (by decide) (by decide) rfl (by decide) (by decide)

/-- C8: the progress counter accounts one increment per snapshot pair
successfully Put plus one per incremental event classified.  On a clean run
the final counter equals snapshot puts plus total events; counting happens at
classification time, before commit, so with a failing destination the
counter (1) exceeds the operations durably committed (0 transactions). -/
theorem C8_progress_counter_accounting :
    (∀ (cfg : Config) (src : SourceData),
      ¬ (cfg.mmNoDestPrefix ∧ cfg.mmDestPrefix ≠ []) →
      src.baseErr = false →
      (∀ wr ∈ src.responses, wr.compactRevision = 0 ∧
        ∀ e ∈ wr.events, e.type ≠ EventType.UNKNOWN) →
      (makeMirror cfg src noFail noFail).err = none ∧
      (makeMirror cfg src noFail noFail).state.total =
        (makeMirror cfg src noFail noFail).state.puts.length +
          evCount src.responses) ∧
    ((makeMirror
        { mmPrefix := [], mmDestPrefix := [], mmNoDestPrefix := false,
          mmRev := 5, mmMaxTxnOps := 128 }
        { chunks := [], baseErr := false,
          responses :=
            [{ compactRevision := 0,
               events :=
                 [{ type := EventType.PUT,
                    kv := { key := ['k'], value := ['v'],
                            modRevision := 5 } }] }] }
        noFail (fun _ => true)).state.total = 1 ∧
     (makeMirror
        { mmPrefix := [], mmDestPrefix := [], mmNoDestPrefix := false,
          mmRev := 5, mmMaxTxnOps := 128 }
        { chunks := [], baseErr := false,
          responses :=
            [{ compactRevision := 0,
               events :=
                 [{ type := EventType.PUT,
                    kv := { key := ['k'], value := ['v'],
                            modRevision := 5 } }] }] }
        noFail (fun _ => true)).state.txns = []) := by
  constructor
  · intro cfg src hc hb hrs
    rw [makeMirror, if_neg hc]
    by_cases h0 : startRevOf cfg = 0
    · rw [if_pos h0]
      dsimp only
      rw [procSnapshot_ok]
      dsimp only
      rw [hb, if_neg (by decide : ¬ (false = true))]
      obtain ⟨T, hT⟩ := procStream_ok cfg.mmPrefix
        (if ¬ cfg.mmNoDestPrefix ∧ cfg.mmDestPrefix = [] then cfg.mmPrefix
          else cfg.mmDestPrefix) cfg.mmMaxTxnOps src.responses _ hrs
      rw [hT]
      dsimp only
      refine ⟨rfl, ?_⟩
      simp only [zeroS, List.length_append, List.length_map, List.length_nil]
      push_cast
      ring
    · rw [if_neg h0]
      obtain ⟨T, hT⟩ := procStream_ok cfg.mmPrefix cfg.mmDestPrefix
        cfg.mmMaxTxnOps src.responses zeroS hrs
      rw [hT]
      dsimp only
      refine ⟨rfl, ?_⟩
      simp [zeroS]
  · exact ⟨by decide, by decide⟩

/-- C8 witness: a clean run with one snapshot chunk of two pairs and one
watch response of one event ends with counter 2 + 1 = 3. -/
theorem C8_counter_witness :
    (makeMirror
        { mmPrefix := [], mmDestPrefix := [], mmNoDestPrefix := false,
          mmRev := 0, mmMaxTxnOps := 128 }
        { chunks := [[{ key := ['a'], value := ['x'], modRevision := 1 },
                      { key := ['b'], value := ['y'], modRevision := 1 }]],
          baseErr := false,
          responses :=
            [{ compactRevision := 0,
               events :=
                 [{ type := EventType.DELETE,
                    kv := { key := ['a'], value := [],
                            modRevision := 2 } }] }] }
        noFail noFail).err = none ∧
    (makeMirror
        { mmPrefix := [], mmDestPrefix := [], mmNoDestPrefix := false,
          mmRev := 0, mmMaxTxnOps := 128 }
        { chunks := [[{ key := ['a'], value := ['x'], modRevision := 1 },
                      { key := ['b'], value := ['y'], modRevision := 1 }]],
          baseErr := false,
          responses :=
            [{ compactRevision := 0,
               events :=
                 [{ type := EventType.DELETE,
                    kv := { key := ['a'], value := [],
                            modRevision := 2 } }] }] }
        noFail noFail).state.total =
      (makeMirror
        { mmPrefix := [], mmDestPrefix := [], mmNoDestPrefix := false,
          mmRev := 0, mmMaxTxnOps := 128 }
        { chunks := [[{ key := ['a'], value := ['x'], modRevision := 1 },
                      { key := ['b'], value := ['y'], modRevision := 1 }]],
          baseErr := false,
          responses :=
            [{ compactRevision := 0,
               events :=
                 [{ type := EventType.DELETE,
                    kv := { key := ['a'], value := [],
                            modRevision := 2 } }] }] }
        noFail noFail).state.puts.length +
        evCount
          [{ compactRevision := 0,
             events :=
               [{ type := EventType.DELETE,
                  kv := { key := ['a'], value := [],
                          modRevision := 2 } }] }] :=
  (C8_progress_counter_accounting.1 _ _ (by decide) rfl (by decide))

/-- C9: pending operations never carry over between watch responses — each
response flushes its leftover group and resets the revision tracking — so
events sharing one revision but split across two responses land in the
concatenation of each response's own commits: at least two transactions,
never one spanning both. -/
theorem C9_no_carryover_between_responses (sp dp : List Char) (m : Nat)
    (st : RunState) (wr1 wr2 : WatchResponse) (r : Int) (hm : 1 ≤ m)
    (hc1 : wr1.compactRevision = 0) (hc2 : wr2.compactRevision = 0)
    (hrev1 : ∀ e ∈ wr1.events, e.kv.modRevision = r)
    (hrev2 : ∀ e ∈ wr2.events, e.kv.modRevision = r)
    (hty1 : ∀ e ∈ wr1.events, e.type ≠ EventType.UNKNOWN)
    (hty2 : ∀ e ∈ wr2.events, e.type ≠ EventType.UNKNOWN)
    (hne1 : wr1.events ≠ []) (hne2 : wr2.events ≠ []) :
    procStream sp dp noFail m st [wr1, wr2] =
      ({ st with
          total := st.total + wr1.events.length + wr2.events.length,
          txns := (st.txns ++ chunkList m (wr1.events.map (evOp sp dp))) ++
            chunkList m (wr2.events.map (evOp sp dp)) },
        none) ∧
    chunkList m (wr1.events.map (evOp sp dp)) ≠ [] ∧
    chunkList m (wr2.events.map (evOp sp dp)) ≠ [] := by
  refine ⟨?_, chunkList_ne_nil m _ (by simpa using hne1),
    chunkList_ne_nil m _ (by simpa using hne2)⟩
  rw [procStream, procResponse_sameRev sp dp m hm r st wr1 hc1 hrev1 hty1]
  dsimp only
  rw [procStream, procResponse_sameRev sp dp m hm r _ wr2 hc2 hrev2 hty2]
  dsimp only
  rw [procStream]

/-- C9 witness: one same-revision event in each of two responses is
committed as two separate singleton transactions. -/
theorem C9_split_witness :
    procStream [] [] noFail 128 zeroS
        [{ compactRevision := 0,
           events :=
             [{ type := EventType.PUT,
                kv := { key := ['p'], value := ['v'], modRevision := 7 } }] },
         { compactRevision := 0,
           events :=
             [{ type := EventType.PUT,
                kv := { key := ['q'], value := ['w'], modRevision := 7 } }] }] =
      ({ total := 2, puts := [],
         txns := [[Op.opPut ['p'] ['v']], [Op.opPut ['q'] ['w']]] },
        none) := by
  have h := C9_no_carryover_between_responses [] [] 128 zeroS
    { compactRevision := 0,
      events :=
        [{ type := EventType.PUT,
           kv := { key := ['p'], value := ['v'], modRevision := 7 } }] }
    { compactRevision := 0,
      events :=
        [{ type := EventType.PUT,
           kv := { key := ['q'], value := ['w'], modRevision := 7 } }] }
    7 (by decide) (by decide) (by decide) (by decide) (by decide)
    (by decide) (by decide) (by decide) (by decide)
  rw [h.1]
  norm_num [chunkList_cons, chunkList_nil, zeroS, evOp, modifyPrefix,
    replaceFirst]

/-- C10: with a transaction limit of at least 1 and watch responses whose
events carry positive, non-decreasing revisions, every transaction the
incremental phase commits — whatever the destination oracle does — is
non-empty, holds at most the limit, and (read off the revision-annotated
shadow run, which erases to the real run) derives entirely from events of a
single source revision. -/
theorem C10_committed_txn_shape (sp dp : List Char) (tf : Nat → Bool)
    (m : Nat) (rs : List WatchResponse) (hm : 1 ≤ m)
    (hnd : ∀ wr ∈ rs, NonDecr 0 wr.events) :
    (procStream sp dp tf m zeroS rs).1.txns =
      eraseTxns (procStreamA sp dp tf m zeroA rs).1.txns ∧
    ∀ t ∈ (procStreamA sp dp tf m zeroA rs).1.txns, GoodTxnA m t := by
  constructor
  · rw [procStreamA_erase sp dp tf m rs zeroA zeroS rfl rfl]
  · exact procStreamA_good sp dp tf m hm rs zeroA hnd (by simp [zeroA])

/-- C10 witness: a response mixing revisions 5, 5, 6 under a limit of 2
commits only well-shaped transactions. -/
theorem C10_txn_shape_witness :
    (procStream [] [] noFail 2 zeroS
        [{ compactRevision := 0,
           events :=
             [{ type := EventType.PUT,
                kv := { key := ['1'], value := ['v'], modRevision := 5 } },
              { type := EventType.PUT,
                kv := { key := ['2'], value := ['v'], modRevision := 5 } },
              { type := EventType.DELETE,
                kv := { key := ['3'], value := [],
                        modRevision := 6 } }] }]).1.txns =
      eraseTxns
        (procStreamA [] [] noFail 2 zeroA
          [{ compactRevision := 0,
             events :=
               [{ type := EventType.PUT,
                  kv := { key := ['1'], value := ['v'], modRevision := 5 } },
                { type := EventType.PUT,
                  kv := { key := ['2'], value := ['v'], modRevision := 5 } },
                { type := EventType.DELETE,
                  kv := { key := ['3'], value := [],
                          modRevision := 6 } }] }]).1.txns ∧
    ∀ t ∈ (procStreamA [] [] noFail 2 zeroA
        [{ compactRevision := 0,
           events :=
             [{ type := EventType.PUT,
                kv := { key := ['1'], value := ['v'], modRevision := 5 } },
              { type := EventType.PUT,
                kv := { key := ['2'], value := ['v'], modRevision := 5 } },
              { type := EventType.DELETE,
                kv := { key := ['3'], value := [],
                        modRevision := 6 } }] }]).1.txns, GoodTxnA 2 t :=
  C10_committed_txn_shape [] [] noFail 2 _ (by decide) (by decide)

end MakeMirror